import Mathlib

/-!
# Studify (`src/script.js`): the in-memory store, analytics, pomodoro timer, persistence

A shallow embedding of the class `StudifyApp`.

Conventions of the embedding.

* Identifiers are strings (`generateId` builds them by string interpolation). A nullable
  reference (`subjectId`) is an `Option String`, `none` standing for `null`.
* A timestamp field (`dueDate`, `createdAt`) is only ever read through `new Date(field)`.
  It is represented by the time value of that `Date` in milliseconds since the epoch:
  `some ms`, or `none` when the stored string does not parse (`Invalid Date`, whose time
  value is `NaN`). Every comparison with `NaN` is false.
* `new Date()` and `Date.now()` are an explicit argument `now : Int` (milliseconds).
* `confirm(...)` is an explicit argument `confirmed : Bool`.
* The host timer is part of the state: `intervals` is the list of interval handles that
  `setInterval` has registered and `clearInterval` has not yet removed. One elapsed second
  (`tick`) runs the callback of every registered interval.
* `showNotification` writes to the console with `console.log` (its comment speaks of an
  alert; none is shown); the console is the list `console`.
* The calls that the store and timer methods make to `saveToStorage` and to the
  `render...`/`update...` methods write to `localStorage` and to the DOM only; none of these
  methods reads either back, so both are left out of the state `StudifyApp`. The two storage
  methods themselves are embedded in the section on persistence, over an explicit
  `LocalStorage`.
* `JSON.stringify`, `JSON.parse` and `toLocaleDateString` are host functions: they are
  arguments of the methods that call them. The section on the JSON text format defines the
  first two on the values this file works with, `jsonStringify` and `jsonParse`.
* Objects have value semantics: no two slots of a collection alias the same object (true of
  everything built by `JSON.parse` and by the `handleAdd...` methods).
-/

namespace Studify

/-! ## Data model -/

/-- A subject, as built in `handleAddSubject`. -/
structure Subject where
  id : String
  name : String
  color : String
  icon : String
  createdAt : Option Int
  deriving DecidableEq, Repr

/-- A task, as built in `handleAddTask`. -/
structure Task where
  id : String
  title : String
  subjectId : Option String
  priority : String
  dueDate : Option Int
  description : String
  completed : Bool
  createdAt : Option Int
  deriving DecidableEq, Repr

/-- A deadline, as built in `addSampleData`. -/
structure Deadline where
  id : String
  title : String
  type : String
  subjectId : Option String
  dueDate : Option Int
  description : String
  completed : Bool
  deriving DecidableEq, Repr

/-- The daily focus, as built in `handleSetFocus`. -/
structure DailyFocus where
  id : String
  title : String
  description : String
  date : Option Int
  completed : Bool
  deriving DecidableEq, Repr

/-- The `stats` object of the constructor. -/
structure Stats where
  tasksCompletedThisWeek : Int
  pomodoroStreakDays : Int
  totalPomodoroMinutes : Int
  deriving DecidableEq, Repr

/-- The fields of a `StudifyApp` instance, with the host timer table and the console. -/
structure StudifyApp where
  subjects : List Subject
  tasks : List Task
  deadlines : List Deadline
  dailyFocus : Option DailyFocus
  stats : Stats
  pomodoroTimer : Option Nat
  pomodoroRunning : Bool
  pomodoroTimeLeft : Int
  pomodoroSessionDuration : Int
  intervals : List Nat
  nextIntervalId : Nat
  console : List String
  deriving DecidableEq, Repr

/-- The state the constructor builds when `localStorage` holds nothing (before
`addSampleData`): empty collections, null focus, zeroed stats, timer fields of lines 27-30. -/
def emptyApp : StudifyApp where
  subjects := []
  tasks := []
  deadlines := []
  dailyFocus := none
  stats := { tasksCompletedThisWeek := 0, pomodoroStreakDays := 0, totalPomodoroMinutes := 0 }
  pomodoroTimer := none
  pomodoroRunning := false
  pomodoroTimeLeft := 25 * 60
  pomodoroSessionDuration := 25
  intervals := []
  nextIntervalId := 1
  console := []

/-! ## Subjects and tasks -/

/-- The method `handleAddSubject`: the form values, the generated id and the creation time
are arguments; an empty icon falls back to the book emoji (`value || '📚'`). -/
def handleAddSubject (newId name color icon : String) (now : Int) (s : StudifyApp) :
    StudifyApp :=
  let subject : Subject :=
    { id := newId, name := name, color := color,
      icon := if icon = "" then "📚" else icon, createdAt := some now }
  { s with
    subjects := s.subjects ++ [subject]
    console := s.console ++ ["Matéria criada com sucesso!"] }

/-- The method `deleteSubject`: when the confirmation is accepted the three collections are
filtered with `!==` against the given id; otherwise nothing happens. -/
def deleteSubject (confirmed : Bool) (subjectId : String) (s : StudifyApp) : StudifyApp :=
  if confirmed then
    { s with
      subjects := s.subjects.filter (fun x => x.id != subjectId)
      tasks := s.tasks.filter (fun t => t.subjectId != some subjectId)
      deadlines := s.deadlines.filter (fun d => d.subjectId != some subjectId) }
  else s

/-- The effect of `tasks.find(t => t.id === taskId)` followed by
`task.completed = !task.completed`: the first task with that id has its flag negated. -/
def toggleFound (taskId : String) : List Task → List Task
  | [] => []
  | t :: ts =>
    if t.id == taskId then { t with completed := !t.completed } :: ts
    else t :: toggleFound taskId ts

/-- The method `toggleTask`. -/
def toggleTask (taskId : String) (s : StudifyApp) : StudifyApp :=
  match s.tasks.find? (fun t => t.id == taskId) with
  | some _ => { s with tasks := toggleFound taskId s.tasks }
  | none => s

/-- The method `deleteTask`. -/
def deleteTask (confirmed : Bool) (taskId : String) (s : StudifyApp) : StudifyApp :=
  if confirmed then { s with tasks := s.tasks.filter (fun t => t.id != taskId) } else s

/-! ## Deadline analytics -/

/-- The test `new Date(field) > bound` on time values; false on an invalid date. -/
def dateAfter (field : Option Int) (bound : Int) : Bool :=
  match field with
  | some t => decide (bound < t)
  | none => false

/-- The comparator handed to `sort`: `new Date(a.dueDate) - new Date(b.dueDate)`,
`none` being `NaN`. -/
def compareDue (a b : Deadline) : Option Int :=
  match a.dueDate, b.dueDate with
  | some x, some y => some (x - y)
  | _, _ => none

/-- Whether `sort` may leave `a` before `b`: the comparator result is not positive
(`SortCompare` reads a `NaN` result as `+0`). -/
def sortLe (a b : Deadline) : Prop :=
  match compareDue a b with
  | some v => v ≤ 0
  | none => True

instance sortLe_decidable : DecidableRel sortLe := fun a b => by
  unfold sortLe
  cases compareDue a b <;> infer_instance

/-- The call `Array.prototype.sort(comparator)`: a stable sort, here by insertion. On the
lists it is applied to (every date valid, so the comparator is consistent) any conforming
engine returns this list. -/
def sortDeadlines (l : List Deadline) : List Deadline :=
  l.insertionSort sortLe

/-- The order on deadlines by due date, defined on valid dates only. -/
def DueLe (a b : Deadline) : Prop :=
  ∃ x y, a.dueDate = some x ∧ b.dueDate = some y ∧ x ≤ y

/-- The method `getUpcomingDeadlines(limit)`: `filter`, `sort`, `slice(0, limit)`. The limit
is a count (default 5, and 5 at the only call site); `slice(0, limit)` is then `take`. -/
def getUpcomingDeadlines (s : StudifyApp) (now : Int) (limit : Nat) : List Deadline :=
  (sortDeadlines (s.deadlines.filter (fun d => dateAfter d.dueDate now))).take limit

/-- The constant `1000 * 60 * 60 * 24`, one day in milliseconds. -/
def msPerDay : Int := 1000 * 60 * 60 * 24

/-- The value `Math.ceil((dueDate - now) / (1000 * 60 * 60 * 24))`, in exact integer
arithmetic (ceiling as the negated floor of the negated quotient); `none` is `NaN`. -/
def daysUntil (dueDate : Option Int) (now : Int) : Option Int :=
  match dueDate with
  | some t => some (-((now - t) / msPerDay))
  | none => none

/-- The method `getDeadlineClass`; both tests are false on `NaN`. -/
def getDeadlineClass (deadline : Deadline) (now : Int) : String :=
  match daysUntil deadline.dueDate now with
  | some n => if n < 0 then "overdue" else if n ≤ 3 then "urgent" else ""
  | none => ""

/-! ## Task analytics -/

/-- The method `getTasksCompletedThisWeek`. -/
def getTasksCompletedThisWeek (s : StudifyApp) (now : Int) : Nat :=
  (s.tasks.filter
    (fun t => t.completed && dateAfter t.createdAt (now - 7 * 24 * 60 * 60 * 1000))).length

/-! ## Pomodoro timer -/

/-- The host call `clearInterval(handle)`: the interval with that handle, if any, is no
longer registered; `null` and stale handles are ignored. -/
def clearInterval (handle : Option Nat) (s : StudifyApp) : StudifyApp :=
  match handle with
  | some h => { s with intervals := s.intervals.filter (fun i => i != h) }
  | none => s

/-- The method `setPomodoroTime`. -/
def setPomodoroTime (minutes : Int) (s : StudifyApp) : StudifyApp :=
  { s with
    pomodoroSessionDuration := minutes
    pomodoroTimeLeft := minutes * 60
    pomodoroRunning := false }

/-- The method `startPomodoro`: `setInterval` registers a new interval under a fresh handle
and the handle is stored in `pomodoroTimer`. -/
def startPomodoro (s : StudifyApp) : StudifyApp :=
  { s with
    pomodoroRunning := true
    pomodoroTimer := some s.nextIntervalId
    intervals := s.intervals ++ [s.nextIntervalId]
    nextIntervalId := s.nextIntervalId + 1 }

/-- The method `pausePomodoro`. -/
def pausePomodoro (s : StudifyApp) : StudifyApp :=
  clearInterval s.pomodoroTimer { s with pomodoroRunning := false }

/-- The method `togglePomodoro`. -/
def togglePomodoro (s : StudifyApp) : StudifyApp :=
  if s.pomodoroRunning then pausePomodoro s else startPomodoro s

/-- The method `resetPomodoro`. -/
def resetPomodoro (s : StudifyApp) : StudifyApp :=
  let s1 := clearInterval s.pomodoroTimer { s with pomodoroRunning := false }
  { s1 with pomodoroTimeLeft := s1.pomodoroSessionDuration * 60 }

/-- The message `completePomodoro` passes to `showNotification`. -/
def completionMessage (minutes : Int) : String :=
  "Parabéns! Você completou um Pomodoro de " ++ toString minutes ++ " minutos! 🎉"

/-- The method `completePomodoro`. -/
def completePomodoro (s : StudifyApp) : StudifyApp :=
  let s1 := clearInterval s.pomodoroTimer { s with pomodoroRunning := false }
  let s2 :=
    { s1 with
      stats := { s1.stats with
        totalPomodoroMinutes := s1.stats.totalPomodoroMinutes + s1.pomodoroSessionDuration }
      console := s1.console ++ [completionMessage s1.pomodoroSessionDuration] }
  resetPomodoro s2

/-- The callback `startPomodoro` hands to `setInterval`. -/
def pomodoroCallback (s : StudifyApp) : StudifyApp :=
  let s1 := { s with pomodoroTimeLeft := s.pomodoroTimeLeft - 1 }
  if s1.pomodoroTimeLeft ≤ 0 then completePomodoro s1 else s1

/-- One second elapses: the host runs the callback of each interval that was registered
when the second began and is still registered when its turn comes. -/
def tick (s : StudifyApp) : StudifyApp :=
  s.intervals.foldl (fun st h => if h ∈ st.intervals then pomodoroCallback st else st) s

/-- The state after `n` seconds without user input. -/
def ticks : Nat → StudifyApp → StudifyApp
  | 0, s => s
  | n + 1, s => ticks n (tick s)

/-- What can happen to the pomodoro engine: the three buttons wired in
`setupEventListeners` (lines 70-74) and the passing of a second. -/
inductive Command where
  | setPomodoroTime (minutes : Int)
  | togglePomodoro
  | resetPomodoro
  | tick
  deriving DecidableEq, Repr

/-- The effect of one command. -/
def step (s : StudifyApp) : Command → StudifyApp
  | .setPomodoroTime m => setPomodoroTime m s
  | .togglePomodoro => togglePomodoro s
  | .resetPomodoro => resetPomodoro s
  | .tick => tick s

/-- The effect of a sequence of commands, first to last. -/
def run (cmds : List Command) (s : StudifyApp) : StudifyApp :=
  cmds.foldl step s

/-- The engine is idle: not running and no interval registered. -/
def Idle (s : StudifyApp) : Prop :=
  s.pomodoroRunning = false ∧ s.intervals = []

/-- At most one interval is registered, and none unless the engine is running. -/
def SingleTick (s : StudifyApp) : Prop :=
  s.intervals.length ≤ 1 ∧ (s.intervals ≠ [] → s.pomodoroRunning = true)

/-- The engine is either idle, or running with exactly the interval whose handle is stored
in `pomodoroTimer`. -/
def TimerOwned (s : StudifyApp) : Prop :=
  Idle s ∨ (s.pomodoroRunning = true ∧ ∃ h, s.pomodoroTimer = some h ∧ s.intervals = [h])

instance Idle_decidable (s : StudifyApp) : Decidable (Idle s) := by
  unfold Idle; infer_instance

instance SingleTick_decidable (s : StudifyApp) : Decidable (SingleTick s) := by
  unfold SingleTick; infer_instance

/-! ## Concrete data used in the examples -/

/-- A task that references the subject id `"x"`. -/
def orphanTask : Task :=
  { id := "t1", title := "Lista 3", subjectId := some "x", priority := "medium",
    dueDate := none, description := "", completed := false, createdAt := some 0 }

/-- A store with no subject at all and one task that references the subject id `"x"`. -/
def orphanApp : StudifyApp := { emptyApp with tasks := [orphanTask] }

/-- A deadline with the given due date. -/
def deadlineAt (dueDate : Option Int) : Deadline :=
  { id := "d1", title := "Prova", type := "exam", subjectId := none, dueDate := dueDate,
    description := "", completed := false }

/-- A task with the given completion flag and creation time. -/
def taskAt (completed : Bool) (createdAt : Option Int) : Task :=
  { id := "t1", title := "Lista 3", subjectId := none, priority := "medium",
    dueDate := none, description := "", completed := completed, createdAt := createdAt }

/-- The instant 2024-01-01T00:00:00Z in milliseconds since the epoch. -/
def jan01 : Int := 1704067200000

/-- The engine is running on its own tick: `pomodoroRunning` is set and the one registered
interval is the one whose handle `startPomodoro` stored in `pomodoroTimer`. -/
def Running (s : StudifyApp) : Prop :=
  s.pomodoroRunning = true ∧ ∃ h, s.pomodoroTimer = some h ∧ s.intervals = [h]

/-- The constructed engine, started, with one second left on the clock. -/
def lastSecondApp : StudifyApp :=
  { startPomodoro emptyApp with pomodoroTimeLeft := 1 }

/-- The markup `getDaysUntilText` returns for an overdue date. -/
def overdueText : String :=
  "<p style=\"color: #EF4444; font-weight: 600;\"><i class=\"fas fa-exclamation-circle\"></i> Atrasado</p>"

/-- The markup `getDaysUntilText` returns for `daysUntil` remaining days, with the plural
`s` unless the number is 1. -/
def remainingText (daysUntil : Int) : String :=
  "<p style=\"color: #F59E0B; font-weight: 600;\"><i class=\"fas fa-exclamation-triangle\"></i> "
    ++ toString daysUntil ++ " dia" ++ (if daysUntil ≠ 1 then "s" else "")
    ++ " restante" ++ (if daysUntil ≠ 1 then "s" else "") ++ "</p>"

/-- The method `getDaysUntilText`; both tests are false on `NaN`. -/
def getDaysUntilText (dueDate : Option Int) (now : Int) : String :=
  match daysUntil dueDate now with
  | some n => if n < 0 then overdueText else if n ≤ 3 then remainingText n else ""
  | none => ""

/-! ## Grouping deadlines by month -/

/-- Whether `acc[month]` is defined: the object has a property of that name. An object is a
list of properties in insertion order, which is the order `Object.entries` enumerates them
in (month labels contain the month name, so none is an array index, the one kind of key
that would be enumerated out of insertion order). -/
def hasGroup (month : String) (acc : List (String × List Deadline)) : Bool :=
  acc.any (fun e => e.1 == month)

/-- The statement `acc[month].push(deadline)`. -/
def pushToGroup (month : String) (deadline : Deadline) :
    List (String × List Deadline) → List (String × List Deadline)
  | [] => []
  | (k, g) :: rest =>
    if k = month then (k, g ++ [deadline]) :: rest
    else (k, g) :: pushToGroup month deadline rest

/-- The reducer of `groupDeadlinesByMonth`. The label that
`toLocaleDateString('pt-BR', { month: 'long', year: 'numeric' })` gives a date is a function
`monthLabel` of the time value, supplied by the host. -/
def groupStep (monthLabel : Option Int → String) (acc : List (String × List Deadline))
    (deadline : Deadline) : List (String × List Deadline) :=
  let month := monthLabel deadline.dueDate
  let acc1 := if hasGroup month acc then acc else acc ++ [(month, [])]
  pushToGroup month deadline acc1

/-- The method `groupDeadlinesByMonth`. -/
def groupDeadlinesByMonth (monthLabel : Option Int → String) (s : StudifyApp) :
    List (String × List Deadline) :=
  s.deadlines.foldl (groupStep monthLabel) []

/-- The labels of a list in the order in which each first occurs. -/
def firstOccurrences : List String → List String
  | [] => []
  | x :: xs => x :: (firstOccurrences xs).filter (fun y => y != x)

/-- The grouping as the specification words it: one group per label, labels in order of
first occurrence, each group the deadlines with that label in their original order. -/
def groupedByLabel (monthLabel : Option Int → String) (ds : List Deadline) :
    List (String × List Deadline) :=
  (firstOccurrences (ds.map (fun d => monthLabel d.dueDate))).map
    (fun k => (k, ds.filter (fun d => monthLabel d.dueDate == k)))

/-! ## Persistence

`JSON.stringify` and `JSON.parse` belong to the host, not to `script.js`: they are arguments
`stringify` and `parse` of the two storage methods, `parse` answering `none` where
`JSON.parse` throws. Values read back from storage are untyped, so this layer works on
`Json` values; the typed collections of `StudifyApp` are the values of the expected shape. -/

/-- A value that `JSON.parse` can return (numbers kept to the integers, which is all the
application stores). -/
inductive Json where
  | null
  | bool (b : Bool)
  | num (n : Int)
  | str (s : String)
  | arr (items : List Json)
  | obj (fields : List (String × Json))

/-- The conversion `ToBoolean`, as applied by `||`. -/
def Json.truthy : Json → Bool
  | .null => false
  | .bool b => b
  | .num n => n != 0
  | .str s => s != ""
  | .arr _ => true
  | .obj _ => true

/-- What a call can throw: the error of `JSON.parse` on a text that is not JSON. -/
inductive Thrown where
  | parseFailure
  deriving DecidableEq, Repr

/-- The contents of `localStorage`: the string stored under each key, if any. -/
abbrev LocalStorage := String → Option String

/-- A `localStorage` in which nothing has been stored. -/
def emptyStorage : LocalStorage := fun _ => none

/-- The call `localStorage.getItem(k)`; `none` is `null`. -/
def getItem (ls : LocalStorage) (k : String) : Option String := ls k

/-- The call `localStorage.setItem(k, v)`. -/
def setItem (ls : LocalStorage) (k v : String) : LocalStorage :=
  fun k1 => if k1 = k then some v else ls k1

/-- The template string that names the storage entry of a key. -/
def storageKey (key : String) : String := "studify_" ++ key

/-- The method `saveToStorage`. -/
def saveToStorage (stringify : Json → String) (key : String) (data : Json)
    (ls : LocalStorage) : LocalStorage :=
  setItem ls (storageKey key) (stringify data)

/-- The method `loadFromStorage`: `data ? JSON.parse(data) : null`, where `data` is falsy
when nothing is stored and when the empty string is; no `try` surrounds the parse. -/
def loadFromStorage (parse : String → Option Json) (key : String) (ls : LocalStorage) :
    Except Thrown Json :=
  match getItem ls (storageKey key) with
  | none => .ok .null
  | some data =>
    if data = "" then .ok .null
    else
      match parse data with
      | some v => .ok v
      | none => .error .parseFailure

/-- The constructor's expression `this.loadFromStorage(key) || fallback`. -/
def loadOr (parse : String → Option Json) (key : String) (fallback : Json)
    (ls : LocalStorage) : Except Thrown Json :=
  match loadFromStorage parse key ls with
  | .ok v => .ok (if v.truthy then v else fallback)
  | .error e => .error e

/-- The five values the constructor loads. -/
structure Loaded where
  subjects : Json
  tasks : Json
  deadlines : Json
  dailyFocus : Json
  stats : Json

/-- The object literal the constructor falls back to for `stats`. -/
def defaultStats : Json :=
  .obj [("tasksCompletedThisWeek", .num 0), ("pomodoroStreakDays", .num 0),
        ("totalPomodoroMinutes", .num 0)]

/-- The keys the constructor loads, in its order. -/
def storedKeys : List String := ["subjects", "tasks", "deadlines", "dailyFocus", "stats"]

/-- Lines 18-26 of the constructor: the five loads in order; a throw ends the constructor.
What the constructor does next is not part of it: `initializeApp` ends with `addSampleData`,
which, whenever `subjects` is empty, installs four sample subjects and replaces `deadlines`
by two sample deadlines (its comment says only on the first run; the test is the empty
`subjects`, on every run). -/
def constructorLoad (parse : String → Option Json) (ls : LocalStorage) :
    Except Thrown Loaded :=
  match loadOr parse "subjects" (.arr []) ls with
  | .error e => .error e
  | .ok subjects =>
    match loadOr parse "tasks" (.arr []) ls with
    | .error e => .error e
    | .ok tasks =>
      match loadOr parse "deadlines" (.arr []) ls with
      | .error e => .error e
      | .ok deadlines =>
        match loadOr parse "dailyFocus" .null ls with
        | .error e => .error e
        | .ok dailyFocus =>
          match loadOr parse "stats" defaultStats ls with
          | .error e => .error e
          | .ok stats =>
            .ok { subjects := subjects, tasks := tasks, deadlines := deadlines,
                  dailyFocus := dailyFocus, stats := stats }

/-- What `JSON.parse` makes of the texts that the examples keep in storage: the literals
`null`, `true`, `false` and the empty array. Of all other texts the examples use only the
cut-off array `[1,2`, on which `JSON.parse` throws. -/
def exampleParse (text : String) : Option Json :=
  if text = "null" then some .null
  else if text = "true" then some (.bool true)
  else if text = "false" then some (.bool false)
  else if text = "[]" then some (.arr [])
  else none

/-- A `localStorage` whose entry for `tasks` is a cut-off text. -/
def corruptStorage : LocalStorage := setItem emptyStorage "studify_tasks" "[1,2"

/-! ## The host's JSON text format

`JSON.stringify` and `JSON.parse` on `Json` values, after ECMA-262 (sections 25.5.1 and
25.5.2) and ECMA-404. Texts are lists of characters. -/

/-- The largest integer that a JavaScript number holds exactly together with all smaller
ones, `Number.MAX_SAFE_INTEGER`. -/
def maxSafeInteger : Nat := 9007199254740991

/-- The value of a decimal digit. -/
def digitValue (c : Char) : Option Nat :=
  if c = '0' then some 0 else if c = '1' then some 1 else if c = '2' then some 2
  else if c = '3' then some 3 else if c = '4' then some 4 else if c = '5' then some 5
  else if c = '6' then some 6 else if c = '7' then some 7 else if c = '8' then some 8
  else if c = '9' then some 9 else none

/-- The value of a hexadecimal digit, in either case. -/
def hexValue (c : Char) : Option Nat :=
  match digitValue c with
  | some d => some d
  | none =>
    if c = 'a' ∨ c = 'A' then some 10 else if c = 'b' ∨ c = 'B' then some 11
    else if c = 'c' ∨ c = 'C' then some 12 else if c = 'd' ∨ c = 'D' then some 13
    else if c = 'e' ∨ c = 'E' then some 14 else if c = 'f' ∨ c = 'F' then some 15
    else none

/-- The decimal text of an integer, as `JSON.stringify` writes a safe integer. -/
def printInt (n : Int) : List Char :=
  if n < 0 then '-' :: Nat.toDigits 10 n.natAbs else Nat.toDigits 10 n.natAbs

/-- What `QuoteJSONString` writes for one character: the two-character escapes, `\u00XX`
for the other control characters, and the character itself otherwise. -/
def escapeChar (c : Char) : List Char :=
  if c = '"' then ['\\', '"']
  else if c = '\\' then ['\\', '\\']
  else if c = Char.ofNat 8 then ['\\', 'b']
  else if c = Char.ofNat 12 then ['\\', 'f']
  else if c = '\n' then ['\\', 'n']
  else if c = '\r' then ['\\', 'r']
  else if c = '\t' then ['\\', 't']
  else if c.toNat < 32 then
    ['\\', 'u', '0', '0', Nat.digitChar (c.toNat / 16), Nat.digitChar (c.toNat % 16)]
  else [c]

/-- The escaped characters of a string, without the surrounding quotes. -/
def escapeChars : List Char → List Char
  | [] => []
  | c :: cs => escapeChar c ++ escapeChars cs

/-- The text `QuoteJSONString` writes for a string. -/
def printString (s : String) : List Char :=
  '"' :: escapeChars s.data ++ ['"']

mutual
/-- The text `JSON.stringify(value)` writes, without indentation. -/
def printValue : Json → List Char
  | .null => ['n', 'u', 'l', 'l']
  | .bool true => ['t', 'r', 'u', 'e']
  | .bool false => ['f', 'a', 'l', 's', 'e']
  | .num n => printInt n
  | .str s => printString s
  | .arr items => '[' :: printElems items ++ [']']
  | .obj fields => '{' :: printFields fields ++ ['}']
/-- The elements of an array, separated by commas. -/
def printElems : List Json → List Char
  | [] => []
  | [x] => printValue x
  | x :: y :: rest => printValue x ++ ',' :: printElems (y :: rest)
/-- The properties of an object, `"key":value`, separated by commas. -/
def printFields : List (String × Json) → List Char
  | [] => []
  | [(k, x)] => printString k ++ ':' :: printValue x
  | (k, x) :: f :: rest => printString k ++ ':' :: printValue x ++ ',' :: printFields (f :: rest)
end

/-- The host function `JSON.stringify` on a `Json` value. -/
def jsonStringify (v : Json) : String := String.mk (printValue v)

/-- The four characters JSON allows as whitespace. -/
def isWhitespace (c : Char) : Bool :=
  c = ' ' || c = '\t' || c = '\n' || c = '\r'

/-- The text after its leading whitespace. -/
def skipWhitespace : List Char → List Char
  | [] => []
  | c :: cs => if isWhitespace c then skipWhitespace cs else c :: cs

/-- Reads decimal digits, most significant first, onto an accumulated value. -/
def readDigits : List Char → Nat → Nat × List Char
  | [], acc => (acc, [])
  | c :: cs, acc =>
    match digitValue c with
    | some d => readDigits cs (acc * 10 + d)
    | none => (acc, c :: cs)

/-- Whether the text goes on with a digit, a fraction or an exponent. -/
def numberContinues : List Char → Bool
  | [] => false
  | c :: _ => (digitValue c).isSome || c = '.' || c = 'e' || c = 'E'

/-- A JSON number: an optional minus sign, then `0` or a digit string without leading zero.
Only this integer form is read: a number that goes on with a fraction or an exponent, or
that lies outside the safe integers, is refused here like a malformed one, although
`JSON.parse` accepts it (as a rule with a value that `Json` does not hold). No text that
`JSON.stringify` writes for a `Json` value has such a number. -/
def parseNumber (cs : List Char) : Option (Int × List Char) :=
  let negative := cs.head? = some '-'
  let digits := if negative then cs.tail else cs
  match digits with
  | [] => none
  | c :: rest =>
    match digitValue c with
    | none => none
    | some d =>
      let r := if d = 0 then (0, rest) else readDigits rest d
      if numberContinues r.2 then none
      else if maxSafeInteger < r.1 then none
      else some (if negative then -(r.1 : Int) else (r.1 : Int), r.2)

/-- The character a two-character escape stands for. -/
def simpleEscape (e : Char) : Option Char :=
  if e = '"' then some '"' else if e = '\\' then some '\\' else if e = '/' then some '/'
  else if e = 'b' then some (Char.ofNat 8) else if e = 'f' then some (Char.ofNat 12)
  else if e = 'n' then some '\n' else if e = 'r' then some '\r'
  else if e = 't' then some '\t' else none

/-- The number four hexadecimal digits write. -/
def hexCode (a b c d : Char) : Option Nat :=
  match hexValue a, hexValue b, hexValue c, hexValue d with
  | some x, some y, some z, some w => some (((x * 16 + y) * 16 + z) * 16 + w)
  | _, _, _, _ => none

/-- The second half of an escaped surrogate pair, after the high surrogate `code`: the pair
is one character. An escaped surrogate on its own is no character of a `String` and is
refused. -/
def lowSurrogate (code : Nat) (cs : List Char) : Option (Char × List Char) :=
  match cs with
  | b1 :: u1 :: a :: b :: c :: d :: rest =>
    if b1 = '\\' ∧ u1 = 'u' then
      match hexCode a b c d with
      | none => none
      | some low =>
        if 56320 ≤ low ∧ low ≤ 57343 then
          some (Char.ofNat (65536 + (code - 55296) * 1024 + (low - 56320)), rest)
        else none
    else none
  | _ => none

/-- The character that the four hexadecimal digits after `\u` write. -/
def unicodeEscape (cs : List Char) : Option (Char × List Char) :=
  match cs with
  | a :: b :: c :: d :: rest =>
    match hexCode a b c d with
    | none => none
    | some code =>
      if code < 55296 ∨ 57343 < code then some (Char.ofNat code, rest)
      else if 56319 < code then none
      else lowSurrogate code rest
  | _ => none

/-- The character an escape stands for, from the text after the backslash. -/
def unescape (cs : List Char) : Option (Char × List Char) :=
  match cs with
  | [] => none
  | e :: rest =>
    if e = 'u' then unicodeEscape rest
    else
      match simpleEscape e with
      | some ch => some (ch, rest)
      | none => none

/-- The characters of a JSON string up to its closing quote, escapes resolved; `acc` holds
the characters read so far, last first, and the first argument bounds the number of
characters still to be read. A control character must be escaped. -/
def parseChars : Nat → List Char → List Char → Option (String × List Char)
  | 0, _, _ => none
  | _ + 1, [], _ => none
  | fuel + 1, c :: cs, acc =>
    if c = '"' then some (String.mk acc.reverse, cs)
    else if c = '\\' then
      match unescape cs with
      | some (ch, rest) => parseChars fuel rest (ch :: acc)
      | none => none
    else if c.toNat < 32 then none
    else parseChars fuel cs (c :: acc)

/-- A JSON string after its opening quote. -/
def parseString (cs : List Char) : Option (String × List Char) :=
  parseChars cs.length cs []

/-- The index a property key denotes when it is an array index: the canonical decimal text
of an integer below `2^32 - 1`. -/
def arrayIndex (key : String) : Option Nat :=
  match key.data with
  | [] => none
  | c :: rest =>
    match digitValue c with
    | none => none
    | some d =>
      let r := if d = 0 then (0, rest) else readDigits rest d
      if r.2 = [] ∧ r.1 < 4294967295 then some r.1 else none

/-- Adds an array-index property: before the first property that is not an array index or
has a larger index. -/
def insertIndexed (i : Nat) (key : String) (x : Json) :
    List (String × Json) → List (String × Json)
  | [] => [(key, x)]
  | (k, y) :: rest =>
    match arrayIndex k with
    | some j => if j < i then (k, y) :: insertIndexed i key x rest else (key, x) :: (k, y) :: rest
    | none => (key, x) :: (k, y) :: rest

/-- Gives the property `key` the value `x` where the object has such a property. -/
def replaceField (key : String) (x : Json) : List (String × Json) → List (String × Json)
  | [] => []
  | (k, y) :: rest => if k = key then (k, x) :: rest else (k, y) :: replaceField key x rest

/-- The step `CreateDataProperty(object, key, x)`: an existing property keeps its place and
takes the new value; a new one goes among the array indices, which an object enumerates
first and in ascending order, or else to the end. -/
def setField (fields : List (String × Json)) (key : String) (x : Json) :
    List (String × Json) :=
  if fields.any (fun f => f.1 == key) then replaceField key x fields
  else
    match arrayIndex key with
    | some i => insertIndexed i key x fields
    | none => fields ++ [(key, x)]

/-- The object that results from creating the properties of a text in their order. -/
def buildObject (raw : List (String × Json)) : List (String × Json) :=
  raw.foldl (fun fields f => setField fields f.1 f.2) []

mutual
/-- A JSON value at the head of the text, and the text after it. The first argument bounds
the nesting and the number of elements still to be read. -/
def parseValue : Nat → List Char → Option (Json × List Char)
  | 0, _ => none
  | fuel + 1, cs =>
    match cs with
    | [] => none
    | c :: rest =>
      if c = 'n' then
        if ['u', 'l', 'l'].isPrefixOf rest then some (.null, rest.drop 3) else none
      else if c = 't' then
        if ['r', 'u', 'e'].isPrefixOf rest then some (.bool true, rest.drop 3) else none
      else if c = 'f' then
        if ['a', 'l', 's', 'e'].isPrefixOf rest then some (.bool false, rest.drop 4) else none
      else if c = '"' then
        match parseString rest with
        | some (s, r) => some (.str s, r)
        | none => none
      else if c = '[' then
        match skipWhitespace rest with
        | [] => none
        | c1 :: r1 =>
          if c1 = ']' then some (.arr [], r1)
          else
            match parseElems fuel (c1 :: r1) with
            | some (items, r) => some (.arr items, r)
            | none => none
      else if c = '{' then
        match skipWhitespace rest with
        | [] => none
        | c1 :: r1 =>
          if c1 = '}' then some (.obj [], r1)
          else
            match parseFields fuel (c1 :: r1) with
            | some (raw, r) => some (.obj (buildObject raw), r)
            | none => none
      else
        match parseNumber (c :: rest) with
        | some (n, r) => some (.num n, r)
        | none => none
/-- The elements of an array after the opening bracket, up to the closing one. -/
def parseElems : Nat → List Char → Option (List Json × List Char)
  | 0, _ => none
  | fuel + 1, cs =>
    match parseValue fuel cs with
    | none => none
    | some (x, r) =>
      match skipWhitespace r with
      | [] => none
      | c :: r1 =>
        if c = ',' then
          match parseElems fuel (skipWhitespace r1) with
          | some (xs, r2) => some (x :: xs, r2)
          | none => none
        else if c = ']' then some ([x], r1)
        else none
/-- The properties of an object after the opening brace, up to the closing one, in the
order of the text. -/
def parseFields : Nat → List Char → Option (List (String × Json) × List Char)
  | 0, _ => none
  | fuel + 1, cs =>
    match cs with
    | [] => none
    | q :: r0 =>
      if q = '"' then
        match parseString r0 with
        | none => none
        | some (key, r) =>
          match skipWhitespace r with
          | [] => none
          | colon :: r1 =>
            if colon = ':' then
              match parseValue fuel (skipWhitespace r1) with
              | none => none
              | some (x, r2) =>
                match skipWhitespace r2 with
                | [] => none
                | c :: r3 =>
                  if c = ',' then
                    match parseFields fuel (skipWhitespace r3) with
                    | some (fs, r4) => some ((key, x) :: fs, r4)
                    | none => none
                  else if c = '}' then some ([(key, x)], r3)
                  else none
            else none
      else none
end

/-- The host function `JSON.parse` on a text: one value, with whitespace allowed around it
and nothing else; `none` where `JSON.parse` throws, and on the two forms that `parseNumber`
and `lowSurrogate` refuse. -/
def jsonParse (text : String) : Option Json :=
  match parseValue (text.data.length + 1) (skipWhitespace text.data) with
  | some (v, rest) => if skipWhitespace rest = [] then some v else none
  | none => none

/-- The order in which an object enumerates two of its keys: array indices ascending, then
the other keys as they were created. -/
def keyBefore (a b : String) : Bool :=
  match arrayIndex a, arrayIndex b with
  | some i, some j => i < j
  | some _, none => true
  | none, some _ => false
  | none, none => a != b

mutual
/-- A value that JavaScript can hold and `JSON.stringify` writes: numbers are safe
integers, and the properties of an object have distinct keys and stand in the order in
which the object enumerates them. -/
def Json.valid : Json → Bool
  | .null => true
  | .bool _ => true
  | .num n => n.natAbs ≤ maxSafeInteger
  | .str _ => true
  | .arr items => validElems items
  | .obj fields => (fields.map Prod.fst).Pairwise (fun a b => keyBefore a b = true)
      && validFields fields
/-- Every element is valid. -/
def validElems : List Json → Bool
  | [] => true
  | x :: xs => x.valid && validElems xs
/-- Every property value is valid. -/
def validFields : List (String × Json) → Bool
  | [] => true
  | (_, x) :: fs => x.valid && validFields fs
end

/-- What the first character of a printed value is: no whitespace, no closing bracket or
brace. -/
def valueStart (c : Char) : Prop :=
  isWhitespace c = false ∧ c ≠ ']' ∧ c ≠ '}'

/-- A task collection as `handleAddTask` builds it and `saveToStorage('tasks', ...)` is
handed it: one task, with an empty subject, no due date, and a description that holds a line
break and quotes. -/
def sampleTasks : Json :=
  .arr [.obj [("id", .str "1762300800000_k3j9x0a1b"), ("title", .str "Lista 3"),
              ("subjectId", .str ""), ("priority", .str "medium"), ("dueDate", .null),
              ("description", .str "cap. 2\n\"limites\""), ("completed", .bool false),
              ("createdAt", .str "2025-11-05T00:00:00.000Z")]]

/-! ## Theorems -/

theorem toggleFound_toggleFound (taskId : String) (ts : List Task) :
    toggleFound taskId (toggleFound taskId ts) = ts := by
  induction ts with
  | nil => rfl
  | cons t ts ih =>
    by_cases h : (t.id == taskId) = true
    · simp [toggleFound, h]
    · simp [toggleFound, h, ih]

theorem find_toggleFound (taskId : String) (ts : List Task) :
    ((toggleFound taskId ts).find? (fun t => t.id == taskId)).isSome
      = (ts.find? (fun t => t.id == taskId)).isSome := by
  induction ts with
  | nil => rfl
  | cons t ts ih =>
    by_cases h : (t.id == taskId) = true
    · simp [toggleFound, h]
    · simp [toggleFound, h, ih]

/-- C1. Cascade completeness: after `deleteSubject(id)` with the confirmation accepted no
subject has that id and no task and no deadline has `subjectId` equal to it; in particular
when the id is that of a subject that `handleAddSubject` has just added. -/
theorem deleteSubject_cascade (s : StudifyApp) (id : String) :
    ((∀ x ∈ (deleteSubject true id s).subjects, x.id ≠ id) ∧
     (∀ t ∈ (deleteSubject true id s).tasks, t.subjectId ≠ some id) ∧
     (∀ d ∈ (deleteSubject true id s).deadlines, d.subjectId ≠ some id)) ∧
    (∀ (name color icon : String) (now : Int),
      (∃ x ∈ (handleAddSubject id name color icon now s).subjects, x.id = id) ∧
      (∀ x ∈ (deleteSubject true id (handleAddSubject id name color icon now s)).subjects,
        x.id ≠ id) ∧
      (∀ t ∈ (deleteSubject true id (handleAddSubject id name color icon now s)).tasks,
        t.subjectId ≠ some id) ∧
      (∀ d ∈ (deleteSubject true id (handleAddSubject id name color icon now s)).deadlines,
        d.subjectId ≠ some id)) := by
  have key : ∀ s : StudifyApp,
      (∀ x ∈ (deleteSubject true id s).subjects, x.id ≠ id) ∧
      (∀ t ∈ (deleteSubject true id s).tasks, t.subjectId ≠ some id) ∧
      (∀ d ∈ (deleteSubject true id s).deadlines, d.subjectId ≠ some id) := by
    intro s
    refine ⟨?_, ?_, ?_⟩
    · intro x hx
      simp only [deleteSubject, if_true, List.mem_filter] at hx
      simpa using hx.2
    · intro t ht
      simp only [deleteSubject, if_true, List.mem_filter] at ht
      simpa using ht.2
    · intro d hd
      simp only [deleteSubject, if_true, List.mem_filter] at hd
      simpa using hd.2
  refine ⟨key s, ?_⟩
  intro name color icon now
  refine ⟨?_, key _⟩
  refine ⟨{ id := id, name := name, color := color,
            icon := if icon = "" then "📚" else icon, createdAt := some now }, ?_, rfl⟩
  simp [handleAddSubject]

/-- C2, as stated, fails: in a store with no subject at all, `deleteSubject("x")` removes the
task whose `subjectId` is `"x"`, so `tasks` does not stay unchanged on an unknown id. -/
theorem deleteSubject_unknown_id_removes_task :
    (∀ x ∈ orphanApp.subjects, x.id ≠ "x") ∧
    orphanApp.tasks = [orphanTask] ∧
    (deleteSubject true "x" orphanApp).tasks = [] ∧
    (deleteSubject true "x" orphanApp).tasks ≠ orphanApp.tasks := by
  decide

/-- C2, amended. When the id is not the id of any subject, `deleteSubject(id)` leaves
`subjects` unchanged; it leaves `tasks` unchanged exactly when no task has `subjectId` equal
to the id, and `deadlines` unchanged exactly when no deadline has; when neither collection
references the id the whole state is unchanged. -/
theorem deleteSubject_unknown_id (s : StudifyApp) (id : String)
    (h : ∀ x ∈ s.subjects, x.id ≠ id) :
    (deleteSubject true id s).subjects = s.subjects ∧
    ((deleteSubject true id s).tasks = s.tasks ↔ ∀ t ∈ s.tasks, t.subjectId ≠ some id) ∧
    ((deleteSubject true id s).deadlines = s.deadlines ↔
      ∀ d ∈ s.deadlines, d.subjectId ≠ some id) ∧
    ((∀ t ∈ s.tasks, t.subjectId ≠ some id) → (∀ d ∈ s.deadlines, d.subjectId ≠ some id) →
      deleteSubject true id s = s) := by
  have hs : s.subjects.filter (fun x => x.id != id) = s.subjects := by
    rw [List.filter_eq_self]
    intro x hx
    simpa using h x hx
  have ht : s.tasks.filter (fun t => t.subjectId != some id) = s.tasks ↔
      ∀ t ∈ s.tasks, t.subjectId ≠ some id := by
    rw [List.filter_eq_self]
    constructor
    · intro k t htm
      simpa using k t htm
    · intro k t htm
      simpa using k t htm
  have hd : s.deadlines.filter (fun d => d.subjectId != some id) = s.deadlines ↔
      ∀ d ∈ s.deadlines, d.subjectId ≠ some id := by
    rw [List.filter_eq_self]
    constructor
    · intro k d hdm
      simpa using k d hdm
    · intro k d hdm
      simpa using k d hdm
  refine ⟨?_, ?_, ?_, ?_⟩
  · simpa [deleteSubject] using hs
  · simp [deleteSubject]
  · simp [deleteSubject]
  · intro k1 k2
    simp only [deleteSubject, if_true, hs, ht.mpr k1, hd.mpr k2]

/-- C2, amended, at a concrete store: the id `"y"` is unknown to `orphanApp` and referenced
by nothing, and the state is unchanged. -/
theorem deleteSubject_unknown_id_witness :
    (∀ x ∈ orphanApp.subjects, x.id ≠ "y") ∧ deleteSubject true "y" orphanApp = orphanApp :=
  ⟨by decide,
   (deleteSubject_unknown_id orphanApp "y" (by decide)).2.2.2 (by decide) (by decide)⟩

/-- C3. `toggleTask` is its own inverse: two calls with the same id give back the state
they started from, whether the id is absent, present once, or shared by several tasks. -/
theorem toggleTask_toggleTask (s : StudifyApp) (id : String) :
    toggleTask id (toggleTask id s) = s := by
  unfold toggleTask
  cases h : s.tasks.find? (fun t => t.id == id) with
  | none => simp [h]
  | some t =>
    have h2 := find_toggleFound id s.tasks
    rw [h] at h2
    simp only [Option.isSome_some] at h2
    obtain ⟨u, hu⟩ := Option.isSome_iff_exists.mp h2
    simp only [hu, toggleFound_toggleFound]

/-! ### Upcoming deadlines -/

theorem dateAfter_iff (field : Option Int) (bound : Int) :
    dateAfter field bound = true ↔ ∃ t, field = some t ∧ bound < t := by
  cases field with
  | none => simp [dateAfter]
  | some t => simp [dateAfter]

theorem sortLe_iff {a b : Deadline} {x y : Int} (ha : a.dueDate = some x)
    (hb : b.dueDate = some y) : sortLe a b ↔ x ≤ y := by
  simp only [sortLe, compareDue, ha, hb]
  omega

theorem orderedInsert_dueLe (a : Deadline) (l : List Deadline)
    (ha : ∃ x, a.dueDate = some x) (hl : ∀ d ∈ l, ∃ y, d.dueDate = some y)
    (hs : l.Pairwise DueLe) : (l.orderedInsert sortLe a).Pairwise DueLe := by
  induction l with
  | nil => simp
  | cons b l ih =>
    obtain ⟨x, hx⟩ := ha
    obtain ⟨y, hy⟩ := hl b (List.mem_cons_self b l)
    rw [List.pairwise_cons] at hs
    by_cases hab : sortLe a b
    · rw [List.orderedInsert, if_pos hab]
      have hxy : x ≤ y := (sortLe_iff hx hy).mp hab
      refine List.pairwise_cons.mpr ⟨?_, List.pairwise_cons.mpr hs⟩
      intro d hd
      rcases List.mem_cons.mp hd with rfl | hd
      · exact ⟨x, y, hx, hy, hxy⟩
      · obtain ⟨y1, z, hy1, hz, hle⟩ := hs.1 d hd
        have : y1 = y := by rw [hy] at hy1; exact (Option.some.inj hy1).symm
        exact ⟨x, z, hx, hz, by omega⟩
    · rw [List.orderedInsert, if_neg hab]
      have hyx : ¬ x ≤ y := fun k => hab ((sortLe_iff hx hy).mpr k)
      refine List.pairwise_cons.mpr ⟨?_, ih (fun d hd => hl d (List.mem_cons_of_mem b hd)) hs.2⟩
      intro d hd
      rcases (List.mem_orderedInsert sortLe).mp hd with rfl | hd
      · exact ⟨y, x, hy, hx, by omega⟩
      · exact hs.1 d hd

theorem sortDeadlines_dueLe (l : List Deadline) (hl : ∀ d ∈ l, ∃ y, d.dueDate = some y) :
    (sortDeadlines l).Pairwise DueLe := by
  induction l with
  | nil => simp [sortDeadlines]
  | cons a l ih =>
    have ih1 := ih (fun d hd => hl d (List.mem_cons_of_mem a hd))
    simp only [sortDeadlines, List.insertionSort] at ih1 ⊢
    refine orderedInsert_dueLe a _ (hl a (List.mem_cons_self a l)) ?_ ih1
    intro d hd
    exact hl d (List.mem_cons_of_mem a (((List.perm_insertionSort sortLe l).mem_iff).mp hd))

/-- C4. `getUpcomingDeadlines(limit)` evaluated at `now` returns deadlines of the store that
all have a due date strictly later than `now`, in non-decreasing order of due date, and at
most `limit` of them. -/
theorem getUpcomingDeadlines_spec (s : StudifyApp) (now : Int) (limit : Nat) :
    (∀ d ∈ getUpcomingDeadlines s now limit,
      d ∈ s.deadlines ∧ ∃ t, d.dueDate = some t ∧ now < t) ∧
    (getUpcomingDeadlines s now limit).Pairwise
      (fun a b => ∃ x y, a.dueDate = some x ∧ b.dueDate = some y ∧ x ≤ y) ∧
    (getUpcomingDeadlines s now limit).length ≤ limit := by
  have hf : ∀ d ∈ s.deadlines.filter (fun d => dateAfter d.dueDate now),
      d ∈ s.deadlines ∧ ∃ t, d.dueDate = some t ∧ now < t := by
    intro d hd
    rw [List.mem_filter] at hd
    exact ⟨hd.1, (dateAfter_iff _ _).mp hd.2⟩
  refine ⟨?_, ?_, ?_⟩
  · intro d hd
    have h1 := List.mem_of_mem_take hd
    exact hf d (((List.perm_insertionSort sortLe _).mem_iff).mp h1)
  · have h1 := sortDeadlines_dueLe (s.deadlines.filter (fun d => dateAfter d.dueDate now))
      (fun d hd => (hf d hd).2.imp fun _ h => h.1)
    exact h1.sublist (List.take_sublist _ _)
  · exact List.length_take_le _ _

/-! ### Urgency class -/

theorem daysUntil_eq_ceil (t now : Int) :
    -((now - t) / msPerDay) = ⌈((t : ℚ) - (now : ℚ)) / 86400000⌉ := by
  have h1 : ((t : ℚ) - (now : ℚ)) / 86400000 = -((((now - t : ℤ)) : ℚ) / ((86400000 : ℕ) : ℚ)) := by
    push_cast
    ring
  rw [h1, Int.ceil_neg, Rat.floor_intCast_div_natCast]
  rfl

/-- C5. `getDeadlineClass` works on `daysUntil = ceil((dueDate - now) / 86,400,000 ms)`: the
class is `overdue` exactly when `daysUntil < 0`, `urgent` exactly when
`0 <= daysUntil <= 3`, and empty otherwise (an invalid date included). With `now` at
2024-01-01T00:00 a due date equal to `now` is urgent, 2023-12-30 is overdue,
2024-01-03T12:00 is urgent with `daysUntil = 3`, and 2024-01-10 is normal. -/
theorem getDeadlineClass_spec (d : Deadline) (now : Int) :
    (daysUntil d.dueDate now
      = d.dueDate.map (fun t => ⌈((t : ℚ) - (now : ℚ)) / 86400000⌉)) ∧
    (getDeadlineClass d now = "overdue" ↔ ∃ n, daysUntil d.dueDate now = some n ∧ n < 0) ∧
    (getDeadlineClass d now = "urgent" ↔
      ∃ n, daysUntil d.dueDate now = some n ∧ 0 ≤ n ∧ n ≤ 3) ∧
    (getDeadlineClass d now = "" ↔
      ¬ (∃ n, daysUntil d.dueDate now = some n ∧ n < 0) ∧
      ¬ (∃ n, daysUntil d.dueDate now = some n ∧ 0 ≤ n ∧ n ≤ 3)) ∧
    getDeadlineClass { d with dueDate := some jan01 } jan01 = "urgent" ∧
    getDeadlineClass { d with dueDate := some (jan01 - 2 * 86400000) } jan01 = "overdue" ∧
    daysUntil (some (jan01 + 2 * 86400000 + 43200000)) jan01 = some 3 ∧
    getDeadlineClass { d with dueDate := some (jan01 + 2 * 86400000 + 43200000) } jan01
      = "urgent" ∧
    getDeadlineClass { d with dueDate := some (jan01 + 9 * 86400000) } jan01 = "" := by
  refine ⟨?_, ?_, ?_, ?_, ?_, ?_, ?_, ?_, ?_⟩
  · cases h : d.dueDate with
    | none => simp [daysUntil]
    | some t => simp [daysUntil, daysUntil_eq_ceil]
  · unfold getDeadlineClass
    cases h : daysUntil d.dueDate now with
    | none => simp
    | some n =>
      by_cases h1 : n < 0
      · simp [h1]
      · by_cases h2 : n ≤ 3
        · simp [h1, h2]
        · simp [h1, h2]
  · unfold getDeadlineClass
    cases h : daysUntil d.dueDate now with
    | none => simp
    | some n =>
      by_cases h1 : n < 0
      · simp [h1]
      · by_cases h2 : n ≤ 3
        · simp [h1, h2]; omega
        · simp [h1, h2]
  · unfold getDeadlineClass
    cases h : daysUntil d.dueDate now with
    | none => simp
    | some n =>
      by_cases h1 : n < 0
      · simp [h1]
      · by_cases h2 : n ≤ 3
        · simp [h1, h2]
        · simp [h1, h2]
  · simp [getDeadlineClass, daysUntil, jan01, msPerDay]
  · simp [getDeadlineClass, daysUntil, jan01, msPerDay]
  · simp [daysUntil, jan01, msPerDay]
  · simp [getDeadlineClass, daysUntil, jan01, msPerDay]
  · simp [getDeadlineClass, daysUntil, jan01, msPerDay]

/-- C6, as stated, fails: a deadline due in 3 days and 1 hour has `daysUntil = 4`, not 3 or
less, and its class is the empty one, not `urgent`. -/
theorem three_days_one_hour_not_urgent :
    3 * msPerDay < (3 * msPerDay + 3600000) - 0 ∧
    (3 * msPerDay + 3600000) - 0 < 4 * msPerDay ∧
    daysUntil (deadlineAt (some (3 * msPerDay + 3600000))).dueDate 0 = some 4 ∧
    getDeadlineClass (deadlineAt (some (3 * msPerDay + 3600000))) 0 = "" ∧
    getDeadlineClass (deadlineAt (some (3 * msPerDay + 3600000))) 0 ≠ "urgent" := by
  decide

/-- C6, amended. A deadline whose due date lies strictly between 3 days and 4 days after
`now` has `daysUntil` rounded up by the ceiling to 4, and its class is the normal (empty)
one. -/
theorem getDeadlineClass_between_three_and_four_days (d : Deadline) (now t : Int)
    (hd : d.dueDate = some t) (h3 : 3 * msPerDay < t - now) (h4 : t - now < 4 * msPerDay) :
    daysUntil d.dueDate now = some 4 ∧ getDeadlineClass d now = "" := by
  have hq : -((now - t) / msPerDay) = 4 := by
    simp only [msPerDay] at h3 h4 ⊢
    omega
  have hdays : daysUntil d.dueDate now = some 4 := by
    simp only [hd, daysUntil, hq]
  refine ⟨hdays, ?_⟩
  simp [getDeadlineClass, hdays]

/-- C6, amended, at a concrete deadline: due 3 days and 1 hour after `now = 0`. -/
theorem getDeadlineClass_between_three_and_four_days_witness :
    daysUntil (deadlineAt (some (3 * msPerDay + 3600000))).dueDate 0 = some 4 ∧
    getDeadlineClass (deadlineAt (some (3 * msPerDay + 3600000))) 0 = "" :=
  getDeadlineClass_between_three_and_four_days (deadlineAt (some (3 * msPerDay + 3600000))) 0
    (3 * msPerDay + 3600000) rfl (by decide) (by decide)

/-! ### Tasks completed this week -/

/-- C7. `getTasksCompletedThisWeek` is the number of tasks that are completed and were
created strictly later than `now` minus 7 days. Adding a completed task created 10 days ago
leaves the count unchanged, adding a completed task created 2 days ago raises it by one,
adding an uncompleted task created 2 days ago leaves it unchanged, and so does adding a
completed task created exactly 7 days ago. -/
theorem getTasksCompletedThisWeek_spec (s : StudifyApp) (now : Int) (t : Task) :
    getTasksCompletedThisWeek s now
      = s.tasks.countP
          (fun t => decide (t.completed = true ∧ ∃ c ∈ t.createdAt, now - 7 * msPerDay < c)) ∧
    getTasksCompletedThisWeek
      { s with tasks := s.tasks ++
          [{ t with completed := true, createdAt := some (now - 10 * msPerDay) }] } now
      = getTasksCompletedThisWeek s now ∧
    getTasksCompletedThisWeek
      { s with tasks := s.tasks ++
          [{ t with completed := true, createdAt := some (now - 2 * msPerDay) }] } now
      = getTasksCompletedThisWeek s now + 1 ∧
    getTasksCompletedThisWeek
      { s with tasks := s.tasks ++
          [{ t with completed := false, createdAt := some (now - 2 * msPerDay) }] } now
      = getTasksCompletedThisWeek s now ∧
    getTasksCompletedThisWeek
      { s with tasks := s.tasks ++
          [{ t with completed := true, createdAt := some (now - 7 * msPerDay) }] } now
      = getTasksCompletedThisWeek s now := by
  refine ⟨?_, ?_, ?_, ?_, ?_⟩
  · unfold getTasksCompletedThisWeek
    rw [List.countP_eq_length_filter]
    congr 2
    funext u
    cases hc : u.createdAt with
    | none => simp [dateAfter]
    | some c => simp [dateAfter, msPerDay]
  · simp [getTasksCompletedThisWeek, List.filter_append, dateAfter, msPerDay]
  · simp [getTasksCompletedThisWeek, List.filter_append, dateAfter, msPerDay]
  · simp [getTasksCompletedThisWeek, List.filter_append]
  · simp [getTasksCompletedThisWeek, List.filter_append, dateAfter, msPerDay]

/-! ### Pomodoro timer -/

theorem ticks_succ (n : Nat) (s : StudifyApp) : ticks (n + 1) s = tick (ticks n s) := by
  induction n generalizing s with
  | zero => rfl
  | succ n ih =>
    show ticks (n + 1) (tick s) = tick (ticks (n + 1) s)
    rw [ih (tick s)]
    rfl

theorem tick_single (s : StudifyApp) (h : Nat) (hi : s.intervals = [h]) :
    tick s = pomodoroCallback s := by
  simp [tick, hi]

theorem tick_none (s : StudifyApp) (hi : s.intervals = []) : tick s = s := by
  simp [tick, hi]

theorem ticks_counting (n : Nat) (s : StudifyApp) (h : Nat) (hi : s.intervals = [h])
    (hn : (n : Int) < s.pomodoroTimeLeft) :
    ticks n s = { s with pomodoroTimeLeft := s.pomodoroTimeLeft - n } := by
  induction n with
  | zero => simp [ticks]
  | succ n ih =>
    have hn1 : (n : Int) < s.pomodoroTimeLeft := by push_cast at hn; omega
    rw [ticks_succ, ih hn1, tick_single _ h (by simpa using hi)]
    have hpos : ¬ (s.pomodoroTimeLeft - (n : Int) - 1 ≤ 0) := by push_cast at hn; omega
    simp only [pomodoroCallback, if_neg hpos]
    congr 1
    push_cast
    ring

/-- C8. From an idle engine, `setPomodoroTime(m)` with `m > 0`, then `startPomodoro()`, then
`m * 60` ticks: after every smaller number `k` of ticks nothing has completed (console and
stats untouched, still running, `m * 60 - k` seconds left); the last tick logs the completion
message once, adds exactly `m` to `stats.totalPomodoroMinutes`, and leaves the engine idle
with `pomodoroTimeLeft = m * 60`. -/
theorem pomodoro_full_session (s : StudifyApp) (m : Nat) (hm : 0 < m) (hidle : Idle s) :
    (∀ k, k < m * 60 →
      (ticks k (startPomodoro (setPomodoroTime m s))).console = s.console ∧
      (ticks k (startPomodoro (setPomodoroTime m s))).stats = s.stats ∧
      (ticks k (startPomodoro (setPomodoroTime m s))).pomodoroRunning = true ∧
      (ticks k (startPomodoro (setPomodoroTime m s))).intervals.length = 1 ∧
      (ticks k (startPomodoro (setPomodoroTime m s))).pomodoroTimeLeft
        = (m : Int) * 60 - k) ∧
    (ticks (m * 60) (startPomodoro (setPomodoroTime m s))).console
      = s.console ++ [completionMessage m] ∧
    (ticks (m * 60) (startPomodoro (setPomodoroTime m s))).stats.totalPomodoroMinutes
      = s.stats.totalPomodoroMinutes + m ∧
    (ticks (m * 60) (startPomodoro (setPomodoroTime m s))).pomodoroRunning = false ∧
    (ticks (m * 60) (startPomodoro (setPomodoroTime m s))).intervals = [] ∧
    (ticks (m * 60) (startPomodoro (setPomodoroTime m s))).pomodoroTimeLeft
      = (m : Int) * 60 := by
  obtain ⟨hrun, hint⟩ := hidle
  have hi : (startPomodoro (setPomodoroTime m s)).intervals = [s.nextIntervalId] := by
    simp [startPomodoro, setPomodoroTime, hint]
  have hleft : (startPomodoro (setPomodoroTime m s)).pomodoroTimeLeft = (m : Int) * 60 := by
    simp [startPomodoro, setPomodoroTime]
  have hk : ∀ k, k < m * 60 →
      ticks k (startPomodoro (setPomodoroTime m s))
        = { startPomodoro (setPomodoroTime m s) with
            pomodoroTimeLeft := (m : Int) * 60 - k } := by
    intro k hk
    rw [ticks_counting k _ _ hi (by rw [hleft]; omega), hleft]
  have hlast : ticks (m * 60) (startPomodoro (setPomodoroTime m s))
      = completePomodoro
          { startPomodoro (setPomodoroTime m s) with pomodoroTimeLeft := 0 } := by
    obtain ⟨n, hn⟩ : ∃ n, m * 60 = n + 1 := ⟨m * 60 - 1, by omega⟩
    rw [hn, ticks_succ, hk n (by omega), tick_single _ s.nextIntervalId (by simpa using hi)]
    have h0 : (m : Int) * 60 - (n : Int) - 1 = 0 := by
      have : ((m * 60 : Nat) : Int) = ((n + 1 : Nat) : Int) := by rw [hn]
      push_cast at this
      omega
    simp only [pomodoroCallback, h0, le_refl, if_true]
  refine ⟨?_, ?_, ?_, ?_, ?_, ?_⟩
  · intro k hlt
    rw [hk k hlt]
    simp [startPomodoro, setPomodoroTime, hint]
  · rw [hlast]
    simp [completePomodoro, resetPomodoro, clearInterval, startPomodoro, setPomodoroTime]
  · rw [hlast]
    simp [completePomodoro, resetPomodoro, clearInterval, startPomodoro, setPomodoroTime]
  · rw [hlast]
    simp [completePomodoro, resetPomodoro, clearInterval, startPomodoro, setPomodoroTime]
  · rw [hlast]
    simp [completePomodoro, resetPomodoro, clearInterval, startPomodoro, setPomodoroTime, hint]
  · rw [hlast]
    simp [completePomodoro, resetPomodoro, clearInterval, startPomodoro, setPomodoroTime]

/-- C8 at the spec's case: 25 minutes from the freshly constructed engine, 1500 ticks. -/
theorem pomodoro_full_session_witness :
    (0 < 25 ∧ Idle emptyApp) ∧
    (ticks (25 * 60) (startPomodoro (setPomodoroTime (25 : Nat) emptyApp))).console
      = emptyApp.console ++ [completionMessage (25 : Nat)] ∧
    (ticks (25 * 60)
        (startPomodoro (setPomodoroTime (25 : Nat) emptyApp))).stats.totalPomodoroMinutes
      = emptyApp.stats.totalPomodoroMinutes + (25 : Nat) :=
  ⟨⟨by decide, by decide⟩,
   (pomodoro_full_session emptyApp 25 (by decide) (by decide)).2.1,
   (pomodoro_full_session emptyApp 25 (by decide) (by decide)).2.2.1⟩

/-- C9 fails on the code. `setPomodoroTime` never calls `clearInterval`: it leaves the
registered intervals as they were, so after `startPomodoro()` then `setPomodoroTime(5)` the
engine reports not running with 300 seconds left while the tick of the earlier start is still
registered, and one second later 299 seconds are left. -/
theorem setPomodoroTime_keeps_tick :
    (∀ (s : StudifyApp) (m : Int), (setPomodoroTime m s).intervals = s.intervals) ∧
    (setPomodoroTime 5 (startPomodoro emptyApp)).pomodoroSessionDuration = 5 ∧
    (setPomodoroTime 5 (startPomodoro emptyApp)).pomodoroTimeLeft = 300 ∧
    (setPomodoroTime 5 (startPomodoro emptyApp)).pomodoroRunning = false ∧
    (setPomodoroTime 5 (startPomodoro emptyApp)).intervals = [1] ∧
    (tick (setPomodoroTime 5 (startPomodoro emptyApp))).pomodoroTimeLeft = 299 :=
  ⟨fun _ _ => rfl, by decide, by decide, by decide, by decide, by decide⟩

/-- C10 fails on the code. From the constructed engine, start, `setPomodoroTime(25)`, start
again: the first command sequence leaves a tick registered while not running, the second
leaves two ticks registered, and from then on each second takes two seconds off the clock. -/
theorem double_tick_registration :
    (run [.togglePomodoro, .setPomodoroTime 25] emptyApp).pomodoroRunning = false ∧
    (run [.togglePomodoro, .setPomodoroTime 25] emptyApp).intervals = [1] ∧
    ¬ SingleTick (run [.togglePomodoro, .setPomodoroTime 25] emptyApp) ∧
    (run [.togglePomodoro, .setPomodoroTime 25, .togglePomodoro] emptyApp).intervals
      = [1, 2] ∧
    ¬ SingleTick (run [.togglePomodoro, .setPomodoroTime 25, .togglePomodoro] emptyApp) ∧
    (run [.togglePomodoro, .setPomodoroTime 25, .togglePomodoro, .tick]
      emptyApp).pomodoroTimeLeft = 1498 := by
  decide

/-! ### The commands other than `setPomodoroTime` keep a single tick -/

theorem timerOwned_singleTick (s : StudifyApp) (h : TimerOwned s) : SingleTick s := by
  rcases h with ⟨_, hi⟩ | ⟨hr, h, _, hi⟩
  · simp [SingleTick, hi]
  · simp [SingleTick, hi, hr]

theorem timerOwned_clear (s : StudifyApp) (h : TimerOwned s) :
    (clearInterval s.pomodoroTimer { s with pomodoroRunning := false }).intervals = [] := by
  rcases h with ⟨_, hi⟩ | ⟨_, h, ht, hi⟩
  · cases hp : s.pomodoroTimer <;> simp [clearInterval, hp, hi]
  · simp [clearInterval, ht, hi]

theorem timerOwned_clear_running (s : StudifyApp) :
    (clearInterval s.pomodoroTimer { s with pomodoroRunning := false }).pomodoroRunning
      = false := by
  cases hp : s.pomodoroTimer <;> simp [clearInterval, hp]

theorem timerOwned_resetPomodoro (s : StudifyApp) (h : TimerOwned s) :
    TimerOwned (resetPomodoro s) :=
  Or.inl ⟨by simpa [resetPomodoro] using timerOwned_clear_running s,
          by simpa [resetPomodoro] using timerOwned_clear s h⟩

theorem timerOwned_togglePomodoro (s : StudifyApp) (h : TimerOwned s) :
    TimerOwned (togglePomodoro s) := by
  by_cases hr : s.pomodoroRunning = true
  · simp only [togglePomodoro, hr, if_true, pausePomodoro]
    exact Or.inl ⟨timerOwned_clear_running s, timerOwned_clear s h⟩
  · rcases h with ⟨_, hi⟩ | ⟨hr2, _⟩
    · simp only [togglePomodoro, hr, if_false]
      exact Or.inr ⟨rfl, s.nextIntervalId, rfl, by simp [startPomodoro, hi]⟩
    · exact absurd hr2 hr

theorem timerOwned_tick (s : StudifyApp) (h : TimerOwned s) : TimerOwned (tick s) := by
  rcases h with ⟨hr, hi⟩ | ⟨hr, h, ht, hi⟩
  · rw [tick_none s hi]
    exact Or.inl ⟨hr, hi⟩
  · rw [tick_single s h hi]
    by_cases hz : s.pomodoroTimeLeft - 1 ≤ 0
    · simp only [pomodoroCallback, if_pos hz]
      refine Or.inl ⟨?_, ?_⟩
      · simp [completePomodoro, resetPomodoro, clearInterval, ht]
      · simp [completePomodoro, resetPomodoro, clearInterval, ht, hi]
    · simp only [pomodoroCallback, if_neg hz]
      exact Or.inr ⟨hr, h, ht, hi⟩

/-- Without `setPomodoroTime`, every sequence of toggles, resets and ticks from the
constructed engine keeps at most one tick registered, and none while not running. -/
theorem singleTick_without_setPomodoroTime (cmds : List Command)
    (h : ∀ c ∈ cmds, ∀ m, c ≠ Command.setPomodoroTime m) :
    SingleTick (run cmds emptyApp) := by
  apply timerOwned_singleTick
  have key : ∀ (cmds : List Command) (s : StudifyApp), TimerOwned s →
      (∀ c ∈ cmds, ∀ m, c ≠ Command.setPomodoroTime m) → TimerOwned (run cmds s) := by
    intro cmds
    induction cmds with
    | nil => intro s hs _; exact hs
    | cons c cs ih =>
      intro s hs hc
      have hstep : TimerOwned (step s c) := by
        cases c with
        | setPomodoroTime m => exact absurd rfl (hc _ (List.mem_cons_self _ _) m)
        | togglePomodoro => exact timerOwned_togglePomodoro s hs
        | resetPomodoro => exact timerOwned_resetPomodoro s hs
        | tick => exact timerOwned_tick s hs
      exact ih (step s c) hstep (fun c1 h1 => hc c1 (List.mem_cons_of_mem _ h1))
  exact key cmds emptyApp (Or.inl ⟨rfl, rfl⟩) h

/-! ### Pause and resume -/

/-- C11, as stated, fails at `t = 1`. The state with one second left is reached by 1499
ticks after a start; pausing keeps the 1 and clears the tick, but the first tick after
resuming completes the session, so `pomodoroTimeLeft` is then `sessionDuration * 60 = 1500`
and not `t - 1 = 0`. -/
theorem resume_at_last_second_completes :
    ticks 1499 (startPomodoro emptyApp) = lastSecondApp ∧
    Running lastSecondApp ∧
    lastSecondApp.pomodoroTimeLeft = 1 ∧
    (pausePomodoro lastSecondApp).pomodoroTimeLeft = 1 ∧
    (pausePomodoro lastSecondApp).intervals = [] ∧
    (tick (startPomodoro (pausePomodoro lastSecondApp))).pomodoroTimeLeft = 1500 ∧
    (tick (startPomodoro (pausePomodoro lastSecondApp))).pomodoroTimeLeft
      ≠ lastSecondApp.pomodoroTimeLeft - 1 := by
  refine ⟨?_, ⟨rfl, 1, rfl, rfl⟩, ?_, ?_, ?_, ?_, ?_⟩
  · rw [ticks_counting 1499 (startPomodoro emptyApp) 1 rfl (by decide)]
    rfl
  all_goals decide

/-- C11, amended. In a running engine whose only registered tick is the one held in
`pomodoroTimer`, with `pomodoroTimeLeft = t`: `pausePomodoro()` leaves `pomodoroTimeLeft = t`
with no tick registered (and the value stays `t` however long the pause lasts); a following
`startPomodoro()` registers one tick and keeps `t`; the first tick after resuming yields
`t - 1` when `t > 1`, and when `t <= 1` it completes the session (the minutes are added to
the stats and `pomodoroTimeLeft` goes back to `sessionDuration * 60`). -/
theorem pause_resume_keeps_time (s : StudifyApp) (hrun : Running s) :
    ((pausePomodoro s).pomodoroTimeLeft = s.pomodoroTimeLeft ∧
     (pausePomodoro s).pomodoroRunning = false ∧
     (pausePomodoro s).intervals = []) ∧
    (∀ n, (ticks n (pausePomodoro s)).pomodoroTimeLeft = s.pomodoroTimeLeft) ∧
    ((startPomodoro (pausePomodoro s)).pomodoroTimeLeft = s.pomodoroTimeLeft ∧
     (startPomodoro (pausePomodoro s)).pomodoroRunning = true ∧
     (startPomodoro (pausePomodoro s)).intervals.length = 1) ∧
    (1 < s.pomodoroTimeLeft →
      (tick (startPomodoro (pausePomodoro s))).pomodoroTimeLeft = s.pomodoroTimeLeft - 1 ∧
      (tick (startPomodoro (pausePomodoro s))).pomodoroRunning = true ∧
      (tick (startPomodoro (pausePomodoro s))).stats = s.stats) ∧
    (s.pomodoroTimeLeft ≤ 1 →
      (tick (startPomodoro (pausePomodoro s))).pomodoroTimeLeft
        = s.pomodoroSessionDuration * 60 ∧
      (tick (startPomodoro (pausePomodoro s))).pomodoroRunning = false ∧
      (tick (startPomodoro (pausePomodoro s))).stats.totalPomodoroMinutes
        = s.stats.totalPomodoroMinutes + s.pomodoroSessionDuration) := by
  obtain ⟨_, h, ht, hi⟩ := hrun
  have hp : pausePomodoro s = { s with pomodoroRunning := false, intervals := [] } := by
    simp [pausePomodoro, clearInterval, ht, hi]
  have hidle : ∀ n, ticks n (pausePomodoro s) = pausePomodoro s := by
    intro n
    induction n with
    | zero => rfl
    | succ n ih => rw [ticks_succ, ih, tick_none _ (by rw [hp])]
  have htick : tick (startPomodoro (pausePomodoro s))
      = pomodoroCallback (startPomodoro (pausePomodoro s)) :=
    tick_single _ s.nextIntervalId (by rw [hp]; rfl)
  refine ⟨?_, ?_, ?_, ?_, ?_⟩
  · rw [hp]; exact ⟨rfl, rfl, rfl⟩
  · intro n
    rw [hidle n, hp]
  · rw [hp]; exact ⟨rfl, rfl, rfl⟩
  · intro h1
    have hpos : ¬ (s.pomodoroTimeLeft - 1 ≤ 0) := by omega
    rw [htick, hp]
    simp [pomodoroCallback, startPomodoro, hpos]
  · intro h1
    have hz : s.pomodoroTimeLeft - 1 ≤ 0 := by omega
    rw [htick, hp]
    simp [pomodoroCallback, startPomodoro, hz, completePomodoro, resetPomodoro, clearInterval]

/-- C11, amended, at the constructed engine just started (`t = 1500`): pause, resume, and
the first tick leaves 1499 seconds. -/
theorem pause_resume_keeps_time_witness :
    Running (startPomodoro emptyApp) ∧
    (tick (startPomodoro (pausePomodoro (startPomodoro emptyApp)))).pomodoroTimeLeft
      = (startPomodoro emptyApp).pomodoroTimeLeft - 1 :=
  ⟨⟨rfl, 1, rfl, rfl⟩,
   ((pause_resume_keeps_time (startPomodoro emptyApp) ⟨rfl, 1, rfl, rfl⟩).2.2.2.1
      (by decide)).1⟩

/-! ### Overdue only after a full day -/

theorem daysUntil_neg_iff (t now : Int) :
    -((now - t) / msPerDay) < 0 ↔ t ≤ now - msPerDay := by
  simp only [msPerDay]
  omega

theorem daysUntil_le_three_iff (t now : Int) :
    -((now - t) / msPerDay) ≤ 3 ↔ t ≤ now + 3 * msPerDay := by
  simp only [msPerDay]
  omega

theorem remainingText_ne (n : Int) (h0 : 0 ≤ n) (h3 : n ≤ 3) :
    remainingText n ≠ overdueText ∧ remainingText n ≠ "" := by
  interval_cases n <;> decide

theorem mem_getUpcomingDeadlines {s : StudifyApp} {now : Int} {limit : Nat} {d : Deadline}
    (h : d ∈ getUpcomingDeadlines s now limit) : ∃ t, d.dueDate = some t ∧ now < t := by
  have h1 := List.mem_of_mem_take h
  have h2 := ((List.perm_insertionSort sortLe _).mem_iff).mp h1
  rw [List.mem_filter] at h2
  exact (dateAfter_iff _ _).mp h2.2

theorem getDeadlineClass_some (d : Deadline) (now t : Int) (h : d.dueDate = some t) :
    getDeadlineClass d now
      = if t ≤ now - msPerDay then "overdue"
        else if t ≤ now + 3 * msPerDay then "urgent" else "" := by
  simp only [getDeadlineClass, daysUntil, h, daysUntil_neg_iff, daysUntil_le_three_iff]

theorem getDaysUntilText_some (now t : Int) :
    getDaysUntilText (some t) now
      = if t ≤ now - msPerDay then overdueText
        else if t ≤ now + 3 * msPerDay then remainingText (-((now - t) / msPerDay))
        else "" := by
  simp only [getDaysUntilText, daysUntil, daysUntil_neg_iff, daysUntil_le_three_iff]

/-- C15. `getDeadlineClass` returns `overdue` if and only if `dueDate <= now - 24 hours` and
`urgent` if and only if `now - 24 hours < dueDate <= now + 3 days`; `getDaysUntilText` makes
the same split on the same bounds (overdue text, text with the number of remaining days,
empty); and no deadline that `getUpcomingDeadlines` returns at the same `now` is classified
`overdue` by either method. -/
theorem overdue_only_after_a_full_day (d : Deadline) (now : Int) (s : StudifyApp)
    (limit : Nat) :
    (getDeadlineClass d now = "overdue" ↔ ∃ t, d.dueDate = some t ∧ t ≤ now - msPerDay) ∧
    (getDeadlineClass d now = "urgent" ↔
      ∃ t, d.dueDate = some t ∧ now - msPerDay < t ∧ t ≤ now + 3 * msPerDay) ∧
    (getDaysUntilText d.dueDate now = overdueText ↔
      ∃ t, d.dueDate = some t ∧ t ≤ now - msPerDay) ∧
    ((∃ n, 0 ≤ n ∧ n ≤ 3 ∧ daysUntil d.dueDate now = some n ∧
        getDaysUntilText d.dueDate now = remainingText n) ↔
      ∃ t, d.dueDate = some t ∧ now - msPerDay < t ∧ t ≤ now + 3 * msPerDay) ∧
    (getDaysUntilText d.dueDate now = "" ↔ getDeadlineClass d now = "") ∧
    (∀ u ∈ getUpcomingDeadlines s now limit,
      getDeadlineClass u now ≠ "overdue" ∧ getDaysUntilText u.dueDate now ≠ overdueText) := by
  have hD : (0 : Int) < msPerDay := by decide
  have hclass : ∀ u : Deadline,
      (getDeadlineClass u now = "overdue" ↔ ∃ t, u.dueDate = some t ∧ t ≤ now - msPerDay) ∧
      (getDaysUntilText u.dueDate now = overdueText ↔
        ∃ t, u.dueDate = some t ∧ t ≤ now - msPerDay) := by
    intro u
    cases hu : u.dueDate with
    | none =>
      have e1 : getDeadlineClass u now = "" := by simp [getDeadlineClass, daysUntil, hu]
      have e2 : getDaysUntilText none now = "" := by simp [getDaysUntilText, daysUntil]
      rw [e1, e2]
      simp
      decide
    | some t =>
      rw [getDeadlineClass_some u now t hu, getDaysUntilText_some]
      by_cases c1 : t ≤ now - msPerDay
      · simp [c1]
      · by_cases c2 : t ≤ now + 3 * msPerDay
        · have hne := (remainingText_ne (-((now - t) / msPerDay))
            (by have := daysUntil_neg_iff t now; omega)
            ((daysUntil_le_three_iff t now).mpr c2)).1
          simp [c1, c2, hne]
        · simp [c1, c2]
          decide
  refine ⟨(hclass d).1, ?_, (hclass d).2, ?_, ?_, ?_⟩
  · cases hd : d.dueDate with
    | none =>
      have e1 : getDeadlineClass d now = "" := by simp [getDeadlineClass, daysUntil, hd]
      rw [e1]
      simp
    | some t =>
      rw [getDeadlineClass_some d now t hd]
      by_cases c1 : t ≤ now - msPerDay
      · simp [c1]
      · by_cases c2 : t ≤ now + 3 * msPerDay
        · simp [c1, c2]
          omega
        · simp [c1, c2]
  · cases hd : d.dueDate with
    | none => simp [daysUntil]
    | some t =>
      have hn := daysUntil_neg_iff t now
      have h3 := daysUntil_le_three_iff t now
      constructor
      · rintro ⟨n, h0, hle, hdn, _⟩
        simp only [daysUntil, Option.some.injEq] at hdn
        refine ⟨t, rfl, ?_, ?_⟩
        · by_contra k
          have := hn.mpr (by omega)
          omega
        · exact h3.mp (by omega)
      · rintro ⟨t1, ht1, hlo, hhi⟩
        obtain rfl : t = t1 := Option.some.inj ht1
        have c1 : ¬ t ≤ now - msPerDay := by omega
        refine ⟨-((now - t) / msPerDay), ?_, h3.mpr hhi, rfl, ?_⟩
        · by_contra k
          have := hn.mp (by omega)
          omega
        · rw [getDaysUntilText_some]
          simp [c1, hhi]
  · cases hd : d.dueDate with
    | none =>
      have e1 : getDeadlineClass d now = "" := by simp [getDeadlineClass, daysUntil, hd]
      have e2 : getDaysUntilText none now = "" := by simp [getDaysUntilText, daysUntil]
      rw [e1, e2]
    | some t =>
      rw [getDeadlineClass_some d now t hd, getDaysUntilText_some]
      by_cases c1 : t ≤ now - msPerDay
      · simp [c1]
        decide
      · by_cases c2 : t ≤ now + 3 * msPerDay
        · have hne := (remainingText_ne (-((now - t) / msPerDay))
            (by have := daysUntil_neg_iff t now; omega)
            ((daysUntil_le_three_iff t now).mpr c2)).2
          simp [c1, c2, hne]
        · simp [c1, c2]
  · intro u hu
    obtain ⟨t, ht, hlt⟩ := mem_getUpcomingDeadlines hu
    have hnot : ¬ ∃ t1, u.dueDate = some t1 ∧ t1 ≤ now - msPerDay := by
      rintro ⟨t1, ht1, hle⟩
      rw [ht] at ht1
      obtain rfl : t = t1 := Option.some.inj ht1
      omega
    exact ⟨fun k => hnot ((hclass u).1.mp k), fun k => hnot ((hclass u).2.mp k)⟩

/-! ### Grouping deadlines by month -/

theorem mem_firstOccurrences (l : List String) (x : String) :
    x ∈ firstOccurrences l ↔ x ∈ l := by
  induction l with
  | nil => simp [firstOccurrences]
  | cons a l ih =>
    by_cases h : x = a
    · simp [firstOccurrences, h]
    · simp [firstOccurrences, h, List.mem_filter, ih]

theorem nodup_firstOccurrences (l : List String) : (firstOccurrences l).Nodup := by
  induction l with
  | nil => simp [firstOccurrences]
  | cons a l ih =>
    simp only [firstOccurrences, List.nodup_cons]
    refine ⟨?_, ih.filter _⟩
    simp [List.mem_filter]

theorem firstOccurrences_append_singleton (l : List String) (x : String) :
    firstOccurrences (l ++ [x])
      = if x ∈ l then firstOccurrences l else firstOccurrences l ++ [x] := by
  induction l with
  | nil => simp [firstOccurrences]
  | cons a l ih =>
    have e : firstOccurrences (a :: l ++ [x])
        = a :: (firstOccurrences (l ++ [x])).filter (fun y => y != a) := rfl
    rw [e, ih]
    by_cases hx : x ∈ l
    · simp [hx, firstOccurrences]
    · by_cases hxa : x = a
      · subst hxa
        simp [hx, List.filter_append, firstOccurrences]
      · simp [hx, hxa, List.filter_append, firstOccurrences]

theorem pushToGroup_of_not_mem (month : String) (d : Deadline)
    (acc : List (String × List Deadline)) (h : ∀ e ∈ acc, e.1 ≠ month) :
    pushToGroup month d acc = acc := by
  induction acc with
  | nil => rfl
  | cons e acc ih =>
    obtain ⟨k, g⟩ := e
    have hk : k ≠ month := h (k, g) (List.mem_cons_self _ _)
    simp only [pushToGroup, if_neg hk]
    rw [ih (fun e he => h e (List.mem_cons_of_mem _ he))]

theorem pushToGroup_append_new (month : String) (d : Deadline)
    (acc : List (String × List Deadline)) (h : ∀ e ∈ acc, e.1 ≠ month) (g : List Deadline) :
    pushToGroup month d (acc ++ [(month, g)]) = acc ++ [(month, g ++ [d])] := by
  induction acc with
  | nil => simp [pushToGroup]
  | cons e acc ih =>
    obtain ⟨k, g1⟩ := e
    have hk : k ≠ month := h (k, g1) (List.mem_cons_self _ _)
    have e := ih (fun e he => h e (List.mem_cons_of_mem _ he))
    simp only [List.cons_append, pushToGroup, if_neg hk]
    exact congrArg _ e

theorem pushToGroup_map (month : String) (d : Deadline) (f f1 : String → List Deadline)
    (keys : List String) (hn : keys.Nodup) (hm : month ∈ keys)
    (hf : ∀ k, k ≠ month → f1 k = f k) (hfm : f1 month = f month ++ [d]) :
    pushToGroup month d (keys.map (fun k => (k, f k))) = keys.map (fun k => (k, f1 k)) := by
  induction keys with
  | nil => simp at hm
  | cons k keys ih =>
    rw [List.nodup_cons] at hn
    by_cases hk : k = month
    · subst hk
      simp only [List.map_cons, pushToGroup, if_true, hfm]
      congr 1
      apply List.map_congr_left
      intro k1 hk1
      have : k1 ≠ k := fun e => hn.1 (e ▸ hk1)
      rw [hf k1 this]
    · have hm1 : month ∈ keys := by
        rcases List.mem_cons.mp hm with e | e
        · exact absurd e.symm hk
        · exact e
      simp only [List.map_cons, pushToGroup, if_neg hk, hf k hk]
      rw [ih hn.2 hm1]

theorem hasGroup_groupedByLabel (monthLabel : Option Int → String) (ds : List Deadline)
    (month : String) :
    hasGroup month (groupedByLabel monthLabel ds) = true
      ↔ month ∈ ds.map (fun d => monthLabel d.dueDate) := by
  rw [← mem_firstOccurrences]
  simp [hasGroup, groupedByLabel]

theorem groupStep_groupedByLabel (monthLabel : Option Int → String) (ds : List Deadline)
    (d : Deadline) :
    groupStep monthLabel (groupedByLabel monthLabel ds) d
      = groupedByLabel monthLabel (ds ++ [d]) := by
  have hkey := hasGroup_groupedByLabel monthLabel ds (monthLabel d.dueDate)
  by_cases hm : monthLabel d.dueDate ∈ ds.map (fun d => monthLabel d.dueDate)
  · have hg : hasGroup (monthLabel d.dueDate) (groupedByLabel monthLabel ds) = true :=
      hkey.mpr hm
    simp only [groupStep, hg, if_true]
    simp only [groupedByLabel, List.map_append, List.map_cons, List.map_nil,
      firstOccurrences_append_singleton, if_pos hm]
    apply pushToGroup_map _ _ _ _ _ (nodup_firstOccurrences _)
      ((mem_firstOccurrences _ _).mpr hm)
    · intro k hk
      have : (monthLabel d.dueDate == k) = false := by simpa using fun e => hk e.symm
      simp [List.filter_append, List.filter_cons, this]
    · simp [List.filter_append, List.filter_cons]
  · have hg : hasGroup (monthLabel d.dueDate) (groupedByLabel monthLabel ds) = false := by
      cases h : hasGroup (monthLabel d.dueDate) (groupedByLabel monthLabel ds)
      · rfl
      · exact absurd (hkey.mp h) hm
    have hnone : ds.filter (fun e => monthLabel e.dueDate == monthLabel d.dueDate) = [] := by
      rw [List.filter_eq_nil_iff]
      intro e he hbeq
      exact hm (List.mem_map.mpr ⟨e, he, by simpa using hbeq⟩)
    have hkeys : ∀ e ∈ groupedByLabel monthLabel ds, e.1 ≠ monthLabel d.dueDate := by
      intro e he heq
      apply hm
      rw [← mem_firstOccurrences]
      simp only [groupedByLabel, List.mem_map] at he
      obtain ⟨k, hk, rfl⟩ := he
      exact heq ▸ hk
    simp only [groupStep, hg, Bool.false_eq_true, if_false]
    rw [pushToGroup_append_new _ _ _ hkeys]
    simp only [groupedByLabel, List.map_append, List.map_cons, List.map_nil,
      firstOccurrences_append_singleton, if_neg hm, List.filter_append, hnone]
    congr 1
    · apply List.map_congr_left
      intro k hk
      have hne : k ≠ monthLabel d.dueDate := fun e =>
        hm ((mem_firstOccurrences _ _).mp (e ▸ hk))
      have : (monthLabel d.dueDate == k) = false := by simpa using fun e => hne e.symm
      simp [List.filter_cons, this]
    · simp [List.filter_cons]

theorem foldl_groupStep (monthLabel : Option Int → String) (ds : List Deadline) :
    ds.foldl (groupStep monthLabel) [] = groupedByLabel monthLabel ds := by
  induction ds using List.reverseRecOn with
  | nil => rfl
  | append_singleton ds d ih =>
    rw [List.foldl_append, List.foldl_cons, List.foldl_nil, ih, groupStep_groupedByLabel]

theorem pushToGroup_flatten_perm (month : String) (d : Deadline)
    (acc : List (String × List Deadline)) (h : hasGroup month acc = true) :
    ((pushToGroup month d acc).map Prod.snd).flatten.Perm
      (d :: (acc.map Prod.snd).flatten) := by
  induction acc with
  | nil => simp [hasGroup] at h
  | cons e acc ih =>
    obtain ⟨k, g⟩ := e
    by_cases hk : k = month
    · simp only [pushToGroup, if_pos hk, List.map_cons, List.flatten_cons, List.append_assoc,
        List.singleton_append]
      exact List.perm_middle
    · have h1 : hasGroup month acc = true := by
        simpa [hasGroup, hk] using h
      simp only [pushToGroup, if_neg hk, List.map_cons, List.flatten_cons]
      exact ((ih h1).append_left g).trans List.perm_middle

theorem groupStep_flatten_perm (monthLabel : Option Int → String)
    (acc : List (String × List Deadline)) (d : Deadline) :
    ((groupStep monthLabel acc d).map Prod.snd).flatten.Perm
      (d :: (acc.map Prod.snd).flatten) := by
  by_cases hg : hasGroup (monthLabel d.dueDate) acc = true
  · simp only [groupStep, hg, if_true]
    exact pushToGroup_flatten_perm _ _ _ hg
  · simp only [groupStep, hg, if_false]
    have h1 : hasGroup (monthLabel d.dueDate) (acc ++ [(monthLabel d.dueDate, [])]) = true := by
      simp [hasGroup]
    have h2 := pushToGroup_flatten_perm (monthLabel d.dueDate) d _ h1
    simpa using h2

theorem foldl_groupStep_perm (monthLabel : Option Int → String) (ds : List Deadline)
    (acc : List (String × List Deadline)) :
    ((ds.foldl (groupStep monthLabel) acc).map Prod.snd).flatten.Perm
      ((acc.map Prod.snd).flatten ++ ds) := by
  induction ds generalizing acc with
  | nil => simp
  | cons d ds ih =>
    rw [List.foldl_cons]
    refine (ih _).trans ?_
    refine ((groupStep_flatten_perm monthLabel acc d).append_right ds).trans ?_
    exact List.perm_middle.symm

/-- C14. `groupDeadlinesByMonth` returns one group per month-year label of the deadlines:
the keys are exactly those labels, each once, in the order in which each first occurs in
the list (not by date); the group of a label is exactly the deadlines with that label in
their original order; and the groups together hold every deadline exactly once. -/
theorem groupDeadlinesByMonth_spec (monthLabel : Option Int → String) (s : StudifyApp) :
    groupDeadlinesByMonth monthLabel s = groupedByLabel monthLabel s.deadlines ∧
    (groupDeadlinesByMonth monthLabel s).map Prod.fst
      = firstOccurrences (s.deadlines.map (fun d => monthLabel d.dueDate)) ∧
    ((groupDeadlinesByMonth monthLabel s).map Prod.fst).Nodup ∧
    (∀ k, k ∈ (groupDeadlinesByMonth monthLabel s).map Prod.fst
      ↔ ∃ d ∈ s.deadlines, monthLabel d.dueDate = k) ∧
    (∀ k g, (k, g) ∈ groupDeadlinesByMonth monthLabel s →
      g = s.deadlines.filter (fun d => monthLabel d.dueDate == k) ∧
      g.Sublist s.deadlines ∧ g ≠ []) ∧
    ((groupDeadlinesByMonth monthLabel s).map Prod.snd).flatten.Perm s.deadlines := by
  have heq : groupDeadlinesByMonth monthLabel s = groupedByLabel monthLabel s.deadlines :=
    foldl_groupStep monthLabel s.deadlines
  have hkeys : (groupDeadlinesByMonth monthLabel s).map Prod.fst
      = firstOccurrences (s.deadlines.map (fun d => monthLabel d.dueDate)) := by
    rw [heq]
    simp [groupedByLabel, Function.comp_def]
  refine ⟨heq, hkeys, ?_, ?_, ?_, ?_⟩
  · rw [hkeys]
    exact nodup_firstOccurrences _
  · intro k
    rw [hkeys, mem_firstOccurrences]
    simp
  · intro k g hkg
    rw [heq] at hkg
    simp only [groupedByLabel, List.mem_map] at hkg
    obtain ⟨k1, hk1, he⟩ := hkg
    obtain ⟨rfl, rfl⟩ := Prod.mk.inj he
    refine ⟨rfl, List.filter_sublist _, ?_⟩
    rw [mem_firstOccurrences, List.mem_map] at hk1
    obtain ⟨d, hd, hdk⟩ := hk1
    intro hnil
    have : d ∈ s.deadlines.filter (fun d => monthLabel d.dueDate == k1) := by
      rw [List.mem_filter]
      exact ⟨hd, by simpa using hdk⟩
    rw [hnil] at this
    simp at this
  · have h := foldl_groupStep_perm monthLabel s.deadlines []
    simpa [groupDeadlinesByMonth] using h

/-! ### Persistence -/

theorem storageKey_injective (a b : String) (h : storageKey a = storageKey b) : a = b := by
  have h1 := congrArg String.data h
  simp only [storageKey, String.data_append] at h1
  exact String.ext (List.append_cancel_left h1)

theorem constructorLoad_error (parse : String → Option Json) (ls : LocalStorage)
    (key : String) (hk : key ∈ storedKeys)
    (h : ∀ fallback, loadOr parse key fallback ls = .error .parseFailure) :
    constructorLoad parse ls = .error .parseFailure := by
  unfold constructorLoad
  simp only [storedKeys, List.mem_cons, List.mem_singleton, List.not_mem_nil, or_false] at hk
  cases h1 : loadOr parse "subjects" (.arr []) ls with
  | error e => cases e; rfl
  | ok v1 =>
    cases h2 : loadOr parse "tasks" (.arr []) ls with
    | error e => cases e; rfl
    | ok v2 =>
      cases h3 : loadOr parse "deadlines" (.arr []) ls with
      | error e => cases e; rfl
      | ok v3 =>
        cases h4 : loadOr parse "dailyFocus" .null ls with
        | error e => cases e; rfl
        | ok v4 =>
          cases h5 : loadOr parse "stats" defaultStats ls with
          | error e => cases e; rfl
          | ok v5 =>
            exfalso
            rcases hk with rfl | rfl | rfl | rfl | rfl
            · rw [h] at h1; cases h1
            · rw [h] at h2; cases h2
            · rw [h] at h3; cases h3
            · rw [h] at h4; cases h4
            · rw [h] at h5; cases h5

/-- C12, as stated, fails: with the cut-off text `[1,2` stored under `studify_tasks`, which
`JSON.parse` rejects, `loadFromStorage('tasks')` raises, and so does the constructor. -/
theorem malformed_storage_raises :
    getItem corruptStorage (storageKey "tasks") = some "[1,2" ∧
    exampleParse "[1,2" = none ∧
    loadFromStorage exampleParse "tasks" corruptStorage = .error .parseFailure ∧
    loadFromStorage exampleParse "tasks" corruptStorage ≠ .ok (.arr []) ∧
    constructorLoad exampleParse corruptStorage = .error .parseFailure := by
  have h1 : getItem corruptStorage (storageKey "tasks") = some "[1,2" := by decide
  have h2 : exampleParse "[1,2" = none := by simp [exampleParse]
  have h3 : loadFromStorage exampleParse "tasks" corruptStorage = .error .parseFailure := by
    simp only [loadFromStorage, h1, h2]
    rfl
  refine ⟨h1, h2, h3, ?_, ?_⟩
  · rw [h3]
    intro h
    cases h
  · refine constructorLoad_error _ _ "tasks" (by decide) ?_
    intro fallback
    simp only [loadOr, h3]

/-- C12, amended. When the string stored under a key is not valid JSON: if it is the empty
string, `loadFromStorage(key)` returns `null` without raising and the constructor's load
takes the default of that entity; if it is not empty, `JSON.parse` throws, `loadFromStorage`
lets the error through, and the constructor raises when the key is one of the five it
loads. -/
theorem loadFromStorage_malformed (parse : String → Option Json) (ls : LocalStorage)
    (key text : String) (hstored : getItem ls (storageKey key) = some text)
    (hbad : parse text = none) :
    (text = "" →
      loadFromStorage parse key ls = .ok .null ∧
      ∀ fallback, loadOr parse key fallback ls = .ok fallback) ∧
    (text ≠ "" →
      loadFromStorage parse key ls = .error .parseFailure ∧
      (∀ fallback, loadOr parse key fallback ls = .error .parseFailure) ∧
      (key ∈ storedKeys → constructorLoad parse ls = .error .parseFailure)) := by
  constructor
  · intro he
    have h1 : loadFromStorage parse key ls = .ok .null := by
      simp [loadFromStorage, hstored, he]
    refine ⟨h1, fun fallback => ?_⟩
    simp [loadOr, h1, Json.truthy]
  · intro hne
    have h1 : loadFromStorage parse key ls = .error .parseFailure := by
      simp [loadFromStorage, hstored, hne, hbad]
    have h2 : ∀ fallback, loadOr parse key fallback ls = .error .parseFailure := by
      intro fallback
      simp [loadOr, h1]
    exact ⟨h1, h2, fun hk => constructorLoad_error parse ls key hk h2⟩

/-- C12, amended, at the storage whose `tasks` entry is the cut-off text `[1,2`. -/
theorem loadFromStorage_malformed_witness :
    (getItem corruptStorage (storageKey "tasks") = some "[1,2" ∧
      exampleParse "[1,2" = none ∧ "[1,2" ≠ "") ∧
    loadFromStorage exampleParse "tasks" corruptStorage = .error .parseFailure :=
  ⟨⟨by decide, by simp [exampleParse], by decide⟩,
   ((loadFromStorage_malformed exampleParse corruptStorage "tasks" "[1,2"
      (by decide) (by simp [exampleParse])).2 (by decide)).1⟩


/-! ### The JSON text format -/

theorem toDigitsCore_append (fuel n : Nat) (ds : List Char) :
    Nat.toDigitsCore 10 fuel n ds = Nat.toDigitsCore 10 fuel n [] ++ ds := by
  induction fuel generalizing n ds with
  | zero => rfl
  | succ fuel ih =>
    simp only [Nat.toDigitsCore]
    split
    · rfl
    · rw [ih (n / 10) (Nat.digitChar (n % 10) :: ds), ih (n / 10) [Nat.digitChar (n % 10)]]
      simp

theorem toDigitsCore_fuel (fuel1 fuel2 n : Nat) (h1 : n < fuel1) (h2 : n < fuel2) :
    Nat.toDigitsCore 10 fuel1 n [] = Nat.toDigitsCore 10 fuel2 n [] := by
  induction fuel1 generalizing fuel2 n with
  | zero => omega
  | succ fuel1 ih =>
    obtain ⟨fuel2, rfl⟩ : ∃ k, fuel2 = k + 1 := ⟨fuel2 - 1, by omega⟩
    simp only [Nat.toDigitsCore]
    split
    · rfl
    · rw [toDigitsCore_append fuel1, toDigitsCore_append fuel2,
        ih fuel2 (n / 10) (by omega) (by omega)]

theorem toDigits_ten (n : Nat) :
    Nat.toDigits 10 n
      = if n < 10 then [Nat.digitChar n]
        else Nat.toDigits 10 (n / 10) ++ [Nat.digitChar (n % 10)] := by
  have e : Nat.toDigits 10 n
      = if n / 10 = 0 then [Nat.digitChar (n % 10)]
        else Nat.toDigitsCore 10 n (n / 10) [Nat.digitChar (n % 10)] := rfl
  rw [e]
  by_cases h : n < 10
  · have h0 : n / 10 = 0 := by omega
    have h1 : n % 10 = n := by omega
    simp [h, h0, h1]
  · have h0 : ¬ n / 10 = 0 := by omega
    simp only [h, h0, if_false]
    rw [toDigitsCore_append, toDigitsCore_fuel n (n / 10 + 1) (n / 10) (by omega) (by omega)]
    rfl

theorem digitValue_digitChar (d : Nat) (h : d < 10) : digitValue (Nat.digitChar d) = some d := by
  interval_cases d <;> rfl

theorem hexValue_digitChar (d : Nat) (h : d < 16) : hexValue (Nat.digitChar d) = some d := by
  interval_cases d <;> rfl

theorem readDigits_toDigits (n : Nat) (rest : List Char) :
    readDigits (Nat.toDigits 10 n ++ rest) 0 = readDigits rest n := by
  induction n using Nat.strong_induction_on generalizing rest with
  | _ n ih =>
    rw [toDigits_ten]
    by_cases h : n < 10
    · simp [h, readDigits, digitValue_digitChar n h]
    · simp only [h, if_false, List.append_assoc, List.singleton_append]
      rw [ih (n / 10) (by omega)]
      simp only [readDigits, digitValue_digitChar (n % 10) (by omega)]
      congr 1
      omega

theorem toDigits_head (n : Nat) :
    ∃ c tail d, Nat.toDigits 10 n = c :: tail ∧ digitValue c = some d ∧ (d = 0 → n = 0) := by
  induction n using Nat.strong_induction_on with
  | _ n ih =>
    rw [toDigits_ten]
    by_cases h : n < 10
    · exact ⟨_, [], n, by simp [h], digitValue_digitChar n h, fun e => e⟩
    · obtain ⟨c, tail, d, h1, h2, h3⟩ := ih (n / 10) (by omega)
      refine ⟨c, tail ++ [Nat.digitChar (n % 10)], d, by simp [h, h1], h2, fun e => ?_⟩
      have := h3 e
      omega

theorem readDigits_stop (rest : List Char) (n : Nat) (h : numberContinues rest = false) :
    readDigits rest n = (n, rest) := by
  cases rest with
  | nil => rfl
  | cons c cs =>
    simp only [numberContinues, Bool.or_eq_false_iff] at h
    have hd : digitValue c = none := by
      cases hc : digitValue c with
      | none => rfl
      | some d => simp [hc] at h
    simp [readDigits, hd]

theorem parseNumber_printInt (n : Int) (rest : List Char)
    (hrest : numberContinues rest = false) (hsafe : n.natAbs ≤ maxSafeInteger) :
    parseNumber (printInt n ++ rest) = some (n, rest) := by
  obtain ⟨c, tail, d, h1, h2, h3⟩ := toDigits_head n.natAbs
  have hread : readDigits (c :: (tail ++ rest)) 0 = (n.natAbs, rest) := by
    have := readDigits_toDigits n.natAbs rest
    rw [h1] at this
    rw [List.cons_append] at this
    rw [this, readDigits_stop rest _ hrest]
  have hread1 : readDigits (tail ++ rest) d = (n.natAbs, rest) := by
    simpa [readDigits, h2] using hread
  have hminus : c ≠ '-' := by
    intro e
    subst e
    simp [digitValue] at h2
  have hr : (if d = 0 then (0, tail ++ rest) else readDigits (tail ++ rest) d)
      = (n.natAbs, rest) := by
    by_cases hd : d = 0
    · have hn := h3 hd
      have ht : Nat.toDigits 10 n.natAbs = ['0'] := by rw [hn]; rfl
      rw [h1] at ht
      obtain ⟨-, rfl⟩ := List.cons.inj ht
      simp [hd, hn]
    · simp [hd, hread1]
  have hnot : ¬ maxSafeInteger < n.natAbs := by omega
  by_cases hneg : n < 0
  · have hval : -|n| = n := by rw [abs_of_neg hneg, neg_neg]
    simp [parseNumber, printInt, hneg, h1, h2, hr, hrest, hnot, hval]
  · have hval : |n| = n := abs_of_nonneg (by omega)
    simp [parseNumber, printInt, hneg, h1, h2, hr, hrest, hnot, hval, hminus]

theorem unescape_escapeChar (c : Char) (tail : List Char) (h : c = '"' ∨ c = '\\' ∨ c.toNat < 32) :
    ∃ e, escapeChar c ++ tail = '\\' :: e ∧ unescape e = some (c, tail) := by
  unfold escapeChar
  by_cases h1 : c = '"'
  · subst h1
    exact ⟨_, rfl, rfl⟩
  by_cases h2 : c = '\\'
  · subst h2
    exact ⟨_, rfl, rfl⟩
  by_cases h3 : c = Char.ofNat 8
  · subst h3
    exact ⟨_, rfl, rfl⟩
  by_cases h4 : c = Char.ofNat 12
  · subst h4
    exact ⟨_, rfl, rfl⟩
  by_cases h5 : c = '\n'
  · subst h5
    exact ⟨_, rfl, rfl⟩
  by_cases h6 : c = '\r'
  · subst h6
    exact ⟨_, rfl, rfl⟩
  by_cases h7 : c = '\t'
  · subst h7
    exact ⟨_, rfl, rfl⟩
  have h8 : c.toNat < 32 := by
    rcases h with h | h | h
    · exact absurd h h1
    · exact absurd h h2
    · exact h
  have hx : hexValue (Nat.digitChar (c.toNat / 16)) = some (c.toNat / 16) :=
    hexValue_digitChar _ (by omega)
  have hy : hexValue (Nat.digitChar (c.toNat % 16)) = some (c.toNat % 16) :=
    hexValue_digitChar _ (by omega)
  have h0 : hexValue '0' = some 0 := rfl
  have hcode : hexCode '0' '0' (Nat.digitChar (c.toNat / 16)) (Nat.digitChar (c.toNat % 16))
      = some c.toNat := by
    simp only [hexCode, h0, hx, hy]
    congr 1
    omega
  have hlow : c.toNat < 55296 ∨ 57343 < c.toNat := Or.inl (by omega)
  refine ⟨_, by simp only [h1, h2, h3, h4, h5, h6, h7, h8, if_true, if_false,
    List.cons_append, List.nil_append]; rfl, ?_⟩
  have hu : unescape ('u' :: '0' :: '0' :: Nat.digitChar (c.toNat / 16)
      :: Nat.digitChar (c.toNat % 16) :: tail)
      = unicodeEscape ('0' :: '0' :: Nat.digitChar (c.toNat / 16)
        :: Nat.digitChar (c.toNat % 16) :: tail) := rfl
  rw [hu]
  simp only [unicodeEscape, hcode, hlow, if_true, Char.ofNat_toNat]

theorem escapeChar_plain (c : Char) (h1 : c ≠ '"') (h2 : c ≠ '\\') (h3 : ¬ c.toNat < 32) :
    escapeChar c = [c] := by
  have e3 : c ≠ Char.ofNat 8 := fun e => h3 (by rw [e]; decide)
  have e4 : c ≠ Char.ofNat 12 := fun e => h3 (by rw [e]; decide)
  have e5 : c ≠ '\n' := fun e => h3 (by rw [e]; decide)
  have e6 : c ≠ '\r' := fun e => h3 (by rw [e]; decide)
  have e7 : c ≠ '\t' := fun e => h3 (by rw [e]; decide)
  simp [escapeChar, h1, h2, h3, e3, e4, e5, e6, e7]

theorem escapeChar_length (c : Char) : 1 ≤ (escapeChar c).length := by
  unfold escapeChar
  split_ifs <;> simp

theorem parseChars_escapeChars (s rest acc : List Char) (fuel : Nat)
    (hfuel : (escapeChars s).length + 1 ≤ fuel) :
    parseChars fuel (escapeChars s ++ '"' :: rest) acc
      = some (String.mk (acc.reverse ++ s), rest) := by
  induction s generalizing acc fuel with
  | nil =>
    obtain ⟨fuel, rfl⟩ : ∃ k, fuel = k + 1 := ⟨fuel - 1, by omega⟩
    simp [escapeChars, parseChars]
  | cons c s ih =>
    obtain ⟨fuel, rfl⟩ : ∃ k, fuel = k + 1 := ⟨fuel - 1, by omega⟩
    have hlen := escapeChar_length c
    simp only [escapeChars, List.length_append] at hfuel
    simp only [escapeChars, List.append_assoc]
    by_cases hesc : c = '"' ∨ c = '\\' ∨ c.toNat < 32
    · obtain ⟨e, he, hun⟩ := unescape_escapeChar c (escapeChars s ++ '"' :: rest) hesc
      rw [he]
      have hq : ('\\' : Char) ≠ '"' := by decide
      simp only [parseChars, hq, if_false, if_true, hun]
      rw [ih (c :: acc) fuel (by omega)]
      simp
    · have h1 : c ≠ '"' := fun e => hesc (Or.inl e)
      have h2 : c ≠ '\\' := fun e => hesc (Or.inr (Or.inl e))
      have h3 : ¬ c.toNat < 32 := fun e => hesc (Or.inr (Or.inr e))
      rw [escapeChar_plain c h1 h2 h3, List.singleton_append]
      simp only [parseChars, h1, h2, h3, if_false]
      rw [ih (c :: acc) fuel (by omega)]
      simp

theorem parseString_printString (s : String) (rest : List Char) :
    ∃ tail, printString s ++ rest = '"' :: tail ∧ parseString tail = some (s, rest) := by
  refine ⟨escapeChars s.data ++ '"' :: rest, by simp [printString], ?_⟩
  rw [parseString, parseChars_escapeChars _ _ _ _ (by simp)]
  simp

theorem skipWhitespace_cons (c : Char) (cs : List Char) (h : isWhitespace c = false) :
    skipWhitespace (c :: cs) = c :: cs := by
  simp [skipWhitespace, h]

theorem printInt_head (n : Int) :
    ∃ c tail, printInt n = c :: tail ∧ (c = '-' ∨ ∃ d, digitValue c = some d) := by
  obtain ⟨c, tail, d, h1, h2, _⟩ := toDigits_head n.natAbs
  unfold printInt
  by_cases h : n < 0
  · exact ⟨'-', Nat.toDigits 10 n.natAbs, by simp [h], Or.inl rfl⟩
  · exact ⟨c, tail, by simp [h, h1], Or.inr ⟨d, h2⟩⟩

theorem valueStart_of_number (c : Char) (h : c = '-' ∨ ∃ d, digitValue c = some d) :
    valueStart c ∧ c ≠ 'n' ∧ c ≠ 't' ∧ c ≠ 'f' ∧ c ≠ '"' ∧ c ≠ '[' ∧ c ≠ '{' := by
  rcases h with rfl | ⟨d, hd⟩
  · exact ⟨⟨by decide, by decide, by decide⟩, by decide, by decide, by decide, by decide,
      by decide, by decide⟩
  · have key : ∀ x : Char, digitValue x = none → c ≠ x := by
      intro x hx e
      rw [e, hx] at hd
      cases hd
    refine ⟨⟨?_, key _ rfl, key _ rfl⟩, key _ rfl, key _ rfl, key _ rfl, key _ rfl, key _ rfl,
      key _ rfl⟩
    have h1 := key ' ' rfl
    have h2 := key '\t' rfl
    have h3 := key '\n' rfl
    have h4 := key '\r' rfl
    simp [isWhitespace, h1, h2, h3, h4]

theorem printValue_head (v : Json) : ∃ c tail, printValue v = c :: tail ∧ valueStart c := by
  have hs : ∀ c : Char, (isWhitespace c = false ∧ c ≠ ']' ∧ c ≠ '}') → valueStart c :=
    fun _ h => h
  cases v with
  | null => exact ⟨'n', ['u', 'l', 'l'], by simp [printValue], hs _ (by decide)⟩
  | bool b =>
    cases b
    · exact ⟨'f', ['a', 'l', 's', 'e'], by simp [printValue], hs _ (by decide)⟩
    · exact ⟨'t', ['r', 'u', 'e'], by simp [printValue], hs _ (by decide)⟩
  | num n =>
    obtain ⟨c, tail, h1, h2⟩ := printInt_head n
    exact ⟨c, tail, by simp [printValue, h1], (valueStart_of_number c h2).1⟩
  | str s =>
    exact ⟨'"', escapeChars s.data ++ ['"'], by simp [printValue, printString],
      hs _ (by decide)⟩
  | arr items =>
    exact ⟨'[', printElems items ++ [']'], by simp [printValue], hs _ (by decide)⟩
  | obj fields =>
    exact ⟨'{', printFields fields ++ ['}'], by simp [printValue], hs _ (by decide)⟩

theorem printElems_head (x : Json) (xs : List Json) :
    ∃ c tail, printElems (x :: xs) = c :: tail ∧ valueStart c := by
  obtain ⟨c, tail, h1, h2⟩ := printValue_head x
  cases xs with
  | nil => exact ⟨c, tail, by simp [printElems, h1], h2⟩
  | cons y ys =>
    exact ⟨c, tail ++ ',' :: printElems (y :: ys), by simp [printElems, h1], h2⟩

theorem printFields_head (f : String × Json) (fs : List (String × Json)) :
    ∃ tail, printFields (f :: fs) = '"' :: tail := by
  obtain ⟨k, x⟩ := f
  cases fs with
  | nil =>
    exact ⟨escapeChars k.data ++ '"' :: ':' :: printValue x, by simp [printFields, printString]⟩
  | cons g gs =>
    exact ⟨escapeChars k.data ++ '"' :: ':' :: (printValue x ++ ',' :: printFields (g :: gs)),
      by simp [printFields, printString]⟩

theorem keyBefore_ne (a b : String) (h : keyBefore a b = true) : a ≠ b := by
  intro e
  subst e
  unfold keyBefore at h
  cases hi : arrayIndex a with
  | none => simp [hi] at h
  | some i => simp [hi] at h

theorem insertIndexed_append (i : Nat) (key : String) (x : Json)
    (fields : List (String × Json)) (hkey : arrayIndex key = some i)
    (h : ∀ f ∈ fields, keyBefore f.1 key = true) :
    insertIndexed i key x fields = fields ++ [(key, x)] := by
  induction fields with
  | nil => rfl
  | cons f fs ih =>
    obtain ⟨k, y⟩ := f
    have hk := h (k, y) (List.mem_cons_self _ _)
    simp only [keyBefore, hkey] at hk
    cases hj : arrayIndex k with
    | none => simp [hj] at hk
    | some j =>
      have hlt : j < i := by simpa [hj] using hk
      simp only [insertIndexed, hj, hlt, if_true, List.cons_append]
      rw [ih (fun f hf => h f (List.mem_cons_of_mem _ hf))]

theorem setField_append (fields : List (String × Json)) (key : String) (x : Json)
    (h : ∀ f ∈ fields, keyBefore f.1 key = true) :
    setField fields key x = fields ++ [(key, x)] := by
  have hany : fields.any (fun f => f.1 == key) = false := by
    rw [List.any_eq_false]
    intro f hf
    simpa using keyBefore_ne _ _ (h f hf)
  simp only [setField, hany, Bool.false_eq_true, if_false]
  cases hi : arrayIndex key with
  | none => rfl
  | some i => exact insertIndexed_append i key x fields hi h

theorem buildObject_of_ordered (fields : List (String × Json))
    (h : (fields.map Prod.fst).Pairwise (fun a b => keyBefore a b = true)) :
    buildObject fields = fields := by
  have key : ∀ (rest acc : List (String × Json)),
      ((acc ++ rest).map Prod.fst).Pairwise (fun a b => keyBefore a b = true) →
      rest.foldl (fun fields f => setField fields f.1 f.2) acc = acc ++ rest := by
    intro rest
    induction rest with
    | nil => intro acc _; simp
    | cons f rest ih =>
      intro acc hp
      have hstep : setField acc f.1 f.2 = acc ++ [f] := by
        apply setField_append
        intro g hg
        rw [List.map_append, List.pairwise_append] at hp
        exact hp.2.2 g.1 (List.mem_map_of_mem _ hg) f.1 (by simp)
      rw [List.foldl_cons, hstep, ih (acc ++ [f]) (by simpa using hp)]
      simp
  simpa [buildObject] using key fields [] (by simpa using h)

theorem numberContinues_comma (t : List Char) : numberContinues (',' :: t) = false := rfl

theorem numberContinues_bracket (t : List Char) : numberContinues (']' :: t) = false := rfl

theorem numberContinues_brace (t : List Char) : numberContinues ('}' :: t) = false := rfl

theorem parseValue_null (fuel : Nat) (rest : List Char) :
    parseValue (fuel + 1) ('n' :: 'u' :: 'l' :: 'l' :: rest) = some (.null, rest) := by
  simp [parseValue, List.isPrefixOf]

theorem parseValue_true (fuel : Nat) (rest : List Char) :
    parseValue (fuel + 1) ('t' :: 'r' :: 'u' :: 'e' :: rest) = some (.bool true, rest) := by
  simp [parseValue, List.isPrefixOf]

theorem parseValue_false (fuel : Nat) (rest : List Char) :
    parseValue (fuel + 1) ('f' :: 'a' :: 'l' :: 's' :: 'e' :: rest)
      = some (.bool false, rest) := by
  simp [parseValue, List.isPrefixOf]

theorem parseValue_string (fuel : Nat) (tail rest : List Char) (s : String)
    (h : parseString tail = some (s, rest)) :
    parseValue (fuel + 1) ('"' :: tail) = some (.str s, rest) := by
  simp [parseValue, h]

theorem parseValue_number (fuel : Nat) (c : Char) (tail rest : List Char) (n : Int)
    (hc : c = '-' ∨ ∃ d, digitValue c = some d)
    (h : parseNumber (c :: tail) = some (n, rest)) :
    parseValue (fuel + 1) (c :: tail) = some (.num n, rest) := by
  obtain ⟨-, h1, h2, h3, h4, h5, h6⟩ := valueStart_of_number c hc
  simp [parseValue, h1, h2, h3, h4, h5, h6, h]

theorem parseValue_empty_array (fuel : Nat) (rest : List Char) :
    parseValue (fuel + 1) ('[' :: ']' :: rest) = some (.arr [], rest) := by
  simp [parseValue, skipWhitespace, isWhitespace]

theorem parseValue_array (fuel : Nat) (c : Char) (tail rest : List Char) (items : List Json)
    (hc : valueStart c) (h : parseElems fuel (c :: tail) = some (items, rest)) :
    parseValue (fuel + 1) ('[' :: c :: tail) = some (.arr items, rest) := by
  have e := skipWhitespace_cons c tail hc.1
  simp [parseValue, e, hc.2.1, h]

theorem parseValue_empty_object (fuel : Nat) (rest : List Char) :
    parseValue (fuel + 1) ('{' :: '}' :: rest) = some (.obj [], rest) := by
  simp [parseValue, skipWhitespace, isWhitespace]

theorem parseValue_object (fuel : Nat) (tail rest : List Char)
    (raw : List (String × Json))
    (h : parseFields fuel ('"' :: tail) = some (raw, rest)) :
    parseValue (fuel + 1) ('{' :: '"' :: tail) = some (.obj (buildObject raw), rest) := by
  simp [parseValue, skipWhitespace, isWhitespace, h]

theorem parseElems_last (fuel : Nat) (cs rest : List Char) (x : Json)
    (h : parseValue fuel cs = some (x, ']' :: rest)) :
    parseElems (fuel + 1) cs = some ([x], rest) := by
  simp [parseElems, h, skipWhitespace, isWhitespace]

theorem parseElems_more (fuel : Nat) (cs tail rest : List Char) (c : Char) (x : Json)
    (xs : List Json) (hc : valueStart c)
    (h : parseValue fuel cs = some (x, ',' :: c :: tail))
    (h2 : parseElems fuel (c :: tail) = some (xs, rest)) :
    parseElems (fuel + 1) cs = some (x :: xs, rest) := by
  have e1 : skipWhitespace (',' :: c :: tail) = ',' :: c :: tail :=
    skipWhitespace_cons _ _ (by decide)
  have e2 := skipWhitespace_cons c tail hc.1
  simp [parseElems, h, e1, e2, h2]

theorem parseFields_last (fuel : Nat) (tail cs rest : List Char) (key : String) (x : Json)
    (c : Char) (hc : valueStart c)
    (hkey : parseString tail = some (key, ':' :: c :: cs))
    (h : parseValue fuel (c :: cs) = some (x, '}' :: rest)) :
    parseFields (fuel + 1) ('"' :: tail) = some ([(key, x)], rest) := by
  have e1 : skipWhitespace (':' :: c :: cs) = ':' :: c :: cs :=
    skipWhitespace_cons _ _ (by decide)
  have e2 := skipWhitespace_cons c cs hc.1
  have e3 : skipWhitespace ('}' :: rest) = '}' :: rest := skipWhitespace_cons _ _ (by decide)
  simp [parseFields, hkey, e1, e2, e3, h]

theorem parseFields_more (fuel : Nat) (tail cs tail2 rest : List Char) (key : String)
    (x : Json) (c : Char) (fs : List (String × Json)) (hc : valueStart c)
    (hkey : parseString tail = some (key, ':' :: c :: cs))
    (h : parseValue fuel (c :: cs) = some (x, ',' :: '"' :: tail2))
    (h2 : parseFields fuel ('"' :: tail2) = some (fs, rest)) :
    parseFields (fuel + 1) ('"' :: tail) = some ((key, x) :: fs, rest) := by
  have e1 : skipWhitespace (':' :: c :: cs) = ':' :: c :: cs :=
    skipWhitespace_cons _ _ (by decide)
  have e2 := skipWhitespace_cons c cs hc.1
  have e3 : skipWhitespace (',' :: '"' :: tail2) = ',' :: '"' :: tail2 :=
    skipWhitespace_cons _ _ (by decide)
  have e4 : skipWhitespace ('"' :: tail2) = '"' :: tail2 := skipWhitespace_cons _ _ (by decide)
  simp [parseFields, hkey, e1, e2, e3, e4, h, h2]

mutual
theorem parseValue_printValue : ∀ (v : Json), v.valid = true → ∀ (fuel : Nat)
    (rest : List Char), (printValue v).length ≤ fuel → numberContinues rest = false →
    parseValue fuel (printValue v ++ rest) = some (v, rest)
  | .null, _, fuel, rest, hfuel, _ => by
    obtain ⟨fuel, rfl⟩ : ∃ k, fuel = k + 1 := ⟨fuel - 1, by simp [printValue] at hfuel; omega⟩
    exact parseValue_null fuel rest
  | .bool true, _, fuel, rest, hfuel, _ => by
    obtain ⟨fuel, rfl⟩ : ∃ k, fuel = k + 1 := ⟨fuel - 1, by simp [printValue] at hfuel; omega⟩
    exact parseValue_true fuel rest
  | .bool false, _, fuel, rest, hfuel, _ => by
    obtain ⟨fuel, rfl⟩ : ∃ k, fuel = k + 1 := ⟨fuel - 1, by simp [printValue] at hfuel; omega⟩
    exact parseValue_false fuel rest
  | .num n, hv, fuel, rest, hfuel, hrest => by
    obtain ⟨c, tail, h1, h2⟩ := printInt_head n
    have hsafe : n.natAbs ≤ maxSafeInteger := by simpa [Json.valid] using hv
    have hnum := parseNumber_printInt n rest hrest hsafe
    obtain ⟨fuel, rfl⟩ : ∃ k, fuel = k + 1 :=
      ⟨fuel - 1, by simp [printValue, h1] at hfuel; omega⟩
    simp only [printValue]
    rw [h1] at hnum ⊢
    exact parseValue_number fuel c (tail ++ rest) rest n h2 hnum
  | .str s, _, fuel, rest, hfuel, _ => by
    obtain ⟨tail, h1, h2⟩ := parseString_printString s rest
    obtain ⟨fuel, rfl⟩ : ∃ k, fuel = k + 1 :=
      ⟨fuel - 1, by simp [printValue, printString] at hfuel; omega⟩
    simp only [printValue]
    rw [h1]
    exact parseValue_string fuel tail rest s h2
  | .arr [], _, fuel, rest, hfuel, _ => by
    obtain ⟨fuel, rfl⟩ : ∃ k, fuel = k + 1 :=
      ⟨fuel - 1, by simp [printValue, printElems] at hfuel; omega⟩
    exact parseValue_empty_array fuel rest
  | .arr (x :: xs), hv, fuel, rest, hfuel, _ => by
    obtain ⟨c, tail, h1, h2⟩ := printElems_head x xs
    have hlen : (printElems (x :: xs)).length + 2 ≤ fuel := by
      simp only [printValue, List.length_cons, List.length_append, List.length_nil] at hfuel
      omega
    obtain ⟨fuel, rfl⟩ : ∃ k, fuel = k + 1 := ⟨fuel - 1, by omega⟩
    have hvalid : validElems (x :: xs) = true := by simpa [Json.valid] using hv
    have ih := parseElems_printElems (x :: xs) (by simp) hvalid fuel rest (by omega)
    rw [h1, List.cons_append] at ih
    have e : printValue (.arr (x :: xs)) ++ rest = '[' :: c :: (tail ++ ']' :: rest) := by
      simp [printValue, h1]
    rw [e]
    exact parseValue_array fuel c _ rest (x :: xs) h2 ih
  | .obj [], _, fuel, rest, hfuel, _ => by
    obtain ⟨fuel, rfl⟩ : ∃ k, fuel = k + 1 :=
      ⟨fuel - 1, by simp [printValue, printFields] at hfuel; omega⟩
    exact parseValue_empty_object fuel rest
  | .obj (f :: fs), hv, fuel, rest, hfuel, _ => by
    obtain ⟨tail, h1⟩ := printFields_head f fs
    have hlen : (printFields (f :: fs)).length + 2 ≤ fuel := by
      simp only [printValue, List.length_cons, List.length_append, List.length_nil] at hfuel
      omega
    obtain ⟨fuel, rfl⟩ : ∃ k, fuel = k + 1 := ⟨fuel - 1, by omega⟩
    have hv2 : ((f :: fs).map Prod.fst).Pairwise (fun a b => keyBefore a b = true)
        ∧ validFields (f :: fs) = true := by
      simpa [Json.valid] using hv
    have ih := parseFields_printFields (f :: fs) (by simp) hv2.2 fuel rest (by omega)
    rw [h1, List.cons_append] at ih
    have e : printValue (.obj (f :: fs)) ++ rest = '{' :: '"' :: (tail ++ '}' :: rest) := by
      simp [printValue, h1]
    rw [e, parseValue_object fuel _ rest (f :: fs) ih, buildObject_of_ordered _ hv2.1]
theorem parseElems_printElems : ∀ (items : List Json), items ≠ [] →
    validElems items = true → ∀ (fuel : Nat) (rest : List Char),
    (printElems items).length + 1 ≤ fuel →
    parseElems fuel (printElems items ++ ']' :: rest) = some (items, rest)
  | [], h, _, _, _, _ => absurd rfl h
  | [x], _, hv, fuel, rest, hfuel => by
    obtain ⟨fuel, rfl⟩ : ∃ k, fuel = k + 1 := ⟨fuel - 1, by omega⟩
    have hx : x.valid = true := by simpa [validElems] using hv
    have ih := parseValue_printValue x hx fuel (']' :: rest)
      (by simp only [printElems] at hfuel; omega) (numberContinues_bracket rest)
    simp only [printElems]
    exact parseElems_last fuel _ rest x ih
  | x :: y :: ys, _, hv, fuel, rest, hfuel => by
    obtain ⟨fuel, rfl⟩ : ∃ k, fuel = k + 1 := ⟨fuel - 1, by omega⟩
    have hv2 : x.valid = true ∧ validElems (y :: ys) = true := by
      simpa [validElems] using hv
    obtain ⟨c, tail, h1, h2⟩ := printElems_head y ys
    simp only [printElems, List.length_append, List.length_cons] at hfuel
    have ih1 := parseValue_printValue x hv2.1 fuel
      (',' :: (printElems (y :: ys) ++ ']' :: rest)) (by omega) (numberContinues_comma _)
    have ih2 := parseElems_printElems (y :: ys) (by simp) hv2.2 fuel rest (by omega)
    rw [h1, List.cons_append] at ih1 ih2
    have e : printElems (x :: y :: ys) ++ ']' :: rest
        = printValue x ++ ',' :: c :: (tail ++ ']' :: rest) := by
      simp [printElems, h1]
    rw [e]
    exact parseElems_more fuel _ _ rest c x (y :: ys) h2 ih1 ih2
theorem parseFields_printFields : ∀ (fields : List (String × Json)), fields ≠ [] →
    validFields fields = true → ∀ (fuel : Nat) (rest : List Char),
    (printFields fields).length + 1 ≤ fuel →
    parseFields fuel (printFields fields ++ '}' :: rest) = some (fields, rest)
  | [], h, _, _, _, _ => absurd rfl h
  | [(k, x)], _, hv, fuel, rest, hfuel => by
    obtain ⟨fuel, rfl⟩ : ∃ k, fuel = k + 1 := ⟨fuel - 1, by omega⟩
    have hx : x.valid = true := by simpa [validFields] using hv
    obtain ⟨c, tail, h1, h2⟩ := printValue_head x
    obtain ⟨ktail, hk1, hk2⟩ := parseString_printString k
      (':' :: (printValue x ++ '}' :: rest))
    simp only [printFields, List.length_append, List.length_cons] at hfuel
    have ih := parseValue_printValue x hx fuel ('}' :: rest) (by omega)
      (numberContinues_brace rest)
    rw [h1, List.cons_append] at ih hk2
    have e : printFields [(k, x)] ++ '}' :: rest = '"' :: ktail := by
      rw [← hk1]
      simp [printFields]
    rw [e]
    exact parseFields_last fuel ktail _ rest k x c h2 hk2 ih
  | (k, x) :: g :: gs, _, hv, fuel, rest, hfuel => by
    obtain ⟨fuel, rfl⟩ : ∃ k, fuel = k + 1 := ⟨fuel - 1, by omega⟩
    have hv2 : x.valid = true ∧ validFields (g :: gs) = true := by
      simpa [validFields] using hv
    obtain ⟨c, tail, h1, h2⟩ := printValue_head x
    obtain ⟨gtail, hg⟩ := printFields_head g gs
    obtain ⟨ktail, hk1, hk2⟩ := parseString_printString k
      (':' :: (printValue x ++ ',' :: (printFields (g :: gs) ++ '}' :: rest)))
    simp only [printFields, List.length_append, List.length_cons] at hfuel
    have ih1 := parseValue_printValue x hv2.1 fuel
      (',' :: (printFields (g :: gs) ++ '}' :: rest)) (by omega) (numberContinues_comma _)
    have ih2 := parseFields_printFields (g :: gs) (by simp) hv2.2 fuel rest (by omega)
    rw [hg, List.cons_append] at ih1 ih2
    rw [h1, List.cons_append] at ih1
    rw [h1, hg, List.cons_append, List.cons_append] at hk2
    have e : printFields ((k, x) :: g :: gs) ++ '}' :: rest = '"' :: ktail := by
      rw [← hk1]
      simp [printFields]
    rw [e]
    exact parseFields_more fuel ktail _ _ rest k x c (g :: gs) h2 hk2 ih1 ih2
end

theorem jsonParse_jsonStringify (v : Json) (hv : v.valid = true) :
    jsonParse (jsonStringify v) = some v ∧ jsonStringify v ≠ "" := by
  obtain ⟨c, tail, h1, h2⟩ := printValue_head v
  constructor
  · have h := parseValue_printValue v hv ((printValue v).length + 1) [] (by omega) rfl
    rw [List.append_nil] at h
    have hs : skipWhitespace (printValue v) = printValue v := by
      rw [h1]
      exact skipWhitespace_cons c tail h2.1
    simp only [jsonParse, jsonStringify, hs, h]
    rfl
  · intro e
    have := congrArg String.data e
    simp [jsonStringify, h1] at this

theorem loadFromStorage_saveToStorage (parse : String → Option Json)
    (stringify : Json → String) (ls : LocalStorage) (key : String) (v : Json)
    (hser : parse (stringify v) = some v) (hne : stringify v ≠ "") :
    loadFromStorage parse key (saveToStorage stringify key v ls) = .ok v := by
  simp [loadFromStorage, saveToStorage, getItem, setItem, hne, hser]

theorem loadFromStorage_other_key (parse : String → Option Json) (stringify : Json → String)
    (ls : LocalStorage) (key key1 : String) (v : Json) (hk : key1 ≠ key) :
    loadFromStorage parse key1 (saveToStorage stringify key v ls)
      = loadFromStorage parse key1 ls := by
  have hkey : storageKey key1 ≠ storageKey key := fun e => hk (storageKey_injective _ _ e)
  simp [loadFromStorage, saveToStorage, getItem, setItem, hkey]

theorem loadFromStorage_absent (parse : String → Option Json) (ls : LocalStorage)
    (key : String) (h : getItem ls (storageKey key) = none) :
    loadFromStorage parse key ls = .ok .null := by
  simp [loadFromStorage, h]

theorem constructorLoad_absent (parse : String → Option Json) (ls : LocalStorage)
    (h : ∀ key ∈ storedKeys, getItem ls (storageKey key) = none) :
    constructorLoad parse ls
      = .ok { subjects := .arr [], tasks := .arr [], deadlines := .arr [],
              dailyFocus := .null, stats := defaultStats } := by
  have hl : ∀ key ∈ storedKeys, ∀ fallback, loadOr parse key fallback ls = .ok fallback := by
    intro key hk fallback
    simp [loadOr, loadFromStorage_absent parse ls key (h key hk), Json.truthy]
  simp only [constructorLoad, hl "subjects" (by decide), hl "tasks" (by decide),
    hl "deadlines" (by decide), hl "dailyFocus" (by decide), hl "stats" (by decide)]

/-- C13. For every value `v` that JavaScript can hold and `JSON.stringify` writes,
`JSON.parse(JSON.stringify(v))` is `v`, so `saveToStorage(key, v)` followed by
`loadFromStorage(key)` returns `v` itself, and the constructor's load of a saved collection
returns that collection; what is loaded under every other key is what it was before the
save. Where nothing is stored under a key `loadFromStorage` returns `null`, and on an
untouched `localStorage` the constructor obtains the defaults: empty lists for the three
collections, `null` for `dailyFocus`, zeroed `stats`. -/
theorem save_load_round_trip (ls : LocalStorage) (key : String) (v : Json)
    (hv : v.valid = true) :
    jsonParse (jsonStringify v) = some v ∧
    loadFromStorage jsonParse key (saveToStorage jsonStringify key v ls) = .ok v ∧
    (∀ items, v = .arr items →
      loadOr jsonParse key (.arr []) (saveToStorage jsonStringify key v ls) = .ok v) ∧
    (∀ key1, key1 ≠ key →
      loadFromStorage jsonParse key1 (saveToStorage jsonStringify key v ls)
        = loadFromStorage jsonParse key1 ls) ∧
    (∀ key1, getItem ls (storageKey key1) = none →
      loadFromStorage jsonParse key1 ls = .ok .null) ∧
    ((∀ key1 ∈ storedKeys, getItem ls (storageKey key1) = none) →
      constructorLoad jsonParse ls
        = .ok { subjects := .arr [], tasks := .arr [], deadlines := .arr [],
                dailyFocus := .null, stats := defaultStats }) ∧
    constructorLoad jsonParse emptyStorage
      = .ok { subjects := .arr [], tasks := .arr [], deadlines := .arr [],
              dailyFocus := .null, stats := defaultStats } := by
  obtain ⟨hser, hne⟩ := jsonParse_jsonStringify v hv
  have hload := loadFromStorage_saveToStorage jsonParse jsonStringify ls key v hser hne
  refine ⟨hser, hload, ?_, ?_, ?_, ?_, ?_⟩
  · rintro items rfl
    simp [loadOr, hload, Json.truthy]
  · intro key1 hk
    exact loadFromStorage_other_key jsonParse jsonStringify ls key key1 v hk
  · intro key1 h
    exact loadFromStorage_absent jsonParse ls key1 h
  · exact constructorLoad_absent jsonParse ls
  · exact constructorLoad_absent jsonParse emptyStorage (fun _ _ => rfl)

/-- C13 at a concrete save: a collection of one task, whose text is the one
`JSON.stringify` writes, is saved under `tasks` in an empty `localStorage` and loaded back
equal. -/
theorem save_load_round_trip_witness :
    sampleTasks.valid = true ∧
    jsonStringify sampleTasks
      = "[\x7b\"id\":\"1762300800000_k3j9x0a1b\",\"title\":\"Lista 3\",\"subjectId\":\"\",\"priority\":\"medium\",\"dueDate\":null,\"description\":\"cap. 2\\n\\\"limites\\\"\",\"completed\":false,\"createdAt\":\"2025-11-05T00:00:00.000Z\"\x7d]" ∧
    loadFromStorage jsonParse "tasks"
      (saveToStorage jsonStringify "tasks" sampleTasks emptyStorage) = .ok sampleTasks :=
  ⟨by decide, by rfl,
   (save_load_round_trip emptyStorage "tasks" sampleTasks (by decide)).2.1⟩

end Studify
